import Mathlib

/-!
Verification model of the chat-relay program `llmcord.py`.

The development shallowly embeds the two in-scope subsystems of the program:

* conversation-graph reconstruction (the reply-chain walk building
  `message_nodes`, and the history assembly loop producing the prompt plus
  the warning set), and
* the streaming render scheduler (the `async for` loop over completion
  fragments that creates and edits outgoing message blocks), together with
  the post-stream bookkeeping (creation of `MessageNode`s for the bot reply
  blocks and removal of their ids from `in_progress_message_ids`).

Machine integers do not occur (Python integers are unbounded); text is
modelled by `String` (Python `len` counts code points, as does
`String.length`).  External effects are modelled explicitly: the message
fetcher is a function into a result type covering `discord.NotFound` and
`discord.HTTPException`; outgoing block creation and edits are recorded in
an event trace; the wall-clock/task-doneness part of the edit throttle
condition is abstracted as a boolean oracle indexed by loop iteration.
-/

namespace Llmcord

/-- Whether `pat` is a prefix of `text` (character lists). -/
def listHasPre : List Char → List Char → Bool
  | [], _ => true
  | _ :: _, [] => false
  | a :: as, b :: bs => a == b && listHasPre as bs

/-- Whether `pat` occurs as a contiguous substring of `text`. -/
def listHasSub (pat : List Char) : List Char → Bool
  | [] => listHasPre pat []
  | c :: rest => listHasPre pat (c :: rest) || listHasSub pat rest

/-- Python's substring test `pat in s` (used for `"image" in att.content_type`
and `'draw me' in message.content.lower()`). -/
def strContains (s pat : String) : Bool :=
  listHasSub pat.data s.data

/-- Python's `str.lower()`, character-wise. -/
def pyLower (s : String) : String :=
  String.mk (s.data.map Char.toLower)

/-- `EMBED_MAX_LENGTH = 4096` (line 38 of the source). -/
def EMBED_MAX_LENGTH : Nat := 4096

/-- The two embed colors used by the program:
`EMBED_COLOR = {"incomplete": orange, "complete": green}` (line 37). -/
inductive Color where
  | orange
  | green
deriving DecidableEq

/-- The dictionary `EMBED_COLOR`, keyed by status string. -/
def EMBED_COLOR (status : String) : Color :=
  if status = "complete" then Color.green else Color.orange

/-- `MAX_IMAGE_WARNING` (line 34): either a per-message cap warning or a
cannot-see-images warning when vision is disabled (`MAX_IMAGES = 0`). -/
def maxImageWarning (maxImages : Nat) : String :=
  if maxImages > 0 then
    let plural := if maxImages == 1 then "" else "s"
    "⚠️ Max " ++ toString maxImages ++ " image" ++ plural ++ " per message"
  else
    "⚠️ Can\x27t see images"

/-- `MAX_MESSAGE_WARNING` (line 35). -/
def maxMessageWarning (maxMessages : Nat) : String :=
  "⚠️ Only using last " ++ toString maxMessages ++ " messages"

/-- One attachment of a platform message: url and content type. -/
structure Attachment where
  url : String
  contentType : String
deriving DecidableEq

/-- One structured content part of a prompt entry: a text part or an
image-reference part (`{"type": "image_url", ...}` with a detail level). -/
inductive ContentPart where
  | text (text : String)
  | imageUrl (url : String) (detail : String)
deriving DecidableEq

/-- The `content` field of a prompt entry: a list of structured parts, or a
flat string when the provider does not support structured content (the
mistral branch, lines 102-104) and for the bot-reply nodes (line 222). -/
inductive MsgContent where
  | parts (parts : List ContentPart)
  | flat (text : String)
deriving DecidableEq

/-- One prompt entry, i.e. the dict
`{"role": ..., "content": ..., "name": ...}` built on lines 106-112. -/
structure PromptEntry where
  role : String
  content : MsgContent
  name : String
deriving DecidableEq

/-- `MessageNode` (lines 50-54).  `replied_to` holds an object reference to
another node in `message_nodes`; since every node in the dict is keyed by
its message id and never replaced, the reference is modelled by the id. -/
structure MessageNode where
  message : PromptEntry
  tooManyImages : Bool := false
  repliedTo : Option Nat := none
deriving DecidableEq

/-- An incoming platform message, with the fields the walk reads:
`message.embeds[0].description` is read instead of `message.content` when
the author is the bot itself (line 89); `reference` is
`message.reference.message_id` when the message is a reply. -/
structure Msg where
  id : Nat
  authorIsBot : Bool
  authorId : Nat
  content : String
  embedDesc : String
  attachments : List Attachment
  reference : Option Nat
deriving DecidableEq

/-- The configuration constants read from the environment. -/
structure Config where
  maxImages : Nat
  maxMessages : Nat
  isMistral : Bool
  botMention : String
  botUserId : Nat
deriving DecidableEq

/-- The image-typed attachments of a message, as image-reference parts
(lines 93-100): attachments whose content type contains `"image"`. -/
def imageParts (m : Msg) : List ContentPart :=
  (m.attachments.filter fun att => strContains att.contentType "image").map
    fun att => ContentPart.imageUrl att.url "low"

/-- Building the `MessageNode` for one walked message (lines 89-114).
The constructor call on lines 106-112 and the subsequent
`too_many_images = True` assignment on lines 113-114 are fused into one
record value; note that line 113 compares the count of image-typed
attachments (`current_message_images`), not the full attachment count. -/
def buildNode (cfg : Config) (m : Msg) : MessageNode :=
  let text0 := if m.authorIsBot then m.embedDesc else m.content
  let text :=
    if text0.startsWith cfg.botMention then
      (text0.drop cfg.botMention.length).trimLeft
    else text0
  let textParts : List ContentPart := if text ≠ "" then [ContentPart.text text] else []
  let images := imageParts m
  let structured := textParts ++ images.take cfg.maxImages
  let content := if cfg.isMistral then MsgContent.flat text else MsgContent.parts structured
  let role := if m.authorIsBot then "assistant" else "user"
  { message := { role := role, content := content, name := toString m.authorId }
    tooManyImages := decide (images.length > cfg.maxImages)
    repliedTo := none }

/-- The process-wide node cache `message_nodes`, an arena keyed by message
id. -/
def Store : Type := Nat → Option MessageNode

/-- The empty cache. -/
def emptyStore : Store := fun _ => none

/-- `message_nodes[i] = n`. -/
def Store.insert (s : Store) (i : Nat) (n : MessageNode) : Store :=
  fun j => if j = i then some n else s j

/-- `message_nodes[i].replied_to = message_nodes[target]` (lines 116, 120):
mutation of the node object already stored under `i`. -/
def Store.setRepliedTo (s : Store) (i : Nat) (target : Nat) : Store :=
  fun j =>
    if j = i then (s j).map fun n => { n with repliedTo := some target }
    else s j

/-- Result of `fetch_message` on the reply target (lines 123-130): success,
or one of the two caught exception classes. -/
inductive FetchResult where
  | ok (m : Msg)
  | notFound
  | httpError
deriving DecidableEq

/-- The reply-chain ascent (`while True`, lines 88-130), walking upward from
the incoming message and populating the store.  `previousId` is
`previous_message_id`; the `reference.resolved` fast path (line 125) is
modelled as a successful fetch, since both produce the referenced message
without raising.  The loop is bounded by explicit fuel (`none` when the fuel
runs out); every theorem below supplies sufficient fuel. -/
def buildChainLoop (cfg : Config) (fetch : Nat → FetchResult) :
    Nat → Store → Msg → Option Nat → Option Store
  | 0, _, _, _ => none
  | fuel + 1, store, current, previousId =>
    let store1 := store.insert current.id (buildNode cfg current)
    let store2 :=
      match previousId with
      | some pid => store1.setRepliedTo pid current.id
      | none => store1
    match current.reference with
    | none => some store2
    | some refId =>
      if (store2 refId).isSome then
        some (store2.setRepliedTo current.id refId)
      else
        match fetch refId with
        | FetchResult.ok next => buildChainLoop cfg fetch fuel store2 next (some current.id)
        | FetchResult.notFound => some store2
        | FetchResult.httpError => some store2

/-- The history-assembly loop (lines 136-142): walk `replied_to` from the
leaf node, newest first, collecting at most `MAX_MESSAGES` entries and
accumulating the warning set.  The next node (`current_node.replied_to` in
Python, an object reference) is resolved through the store by id. -/
def assembleLoop (s : Store) (cfg : Config) (cur : Option MessageNode)
    (chain : List PromptEntry) (warnings : Finset String) :
    List PromptEntry × Finset String :=
  match cur with
  | none => (chain, warnings)
  | some n =>
    if chain.length < cfg.maxMessages then
      let chain' := chain ++ [n.message]
      let w1 :=
        if n.tooManyImages then insert (maxImageWarning cfg.maxImages) warnings
        else warnings
      let w2 :=
        if chain'.length = cfg.maxMessages ∧ n.repliedTo.isSome then
          insert (maxMessageWarning cfg.maxMessages) w1
        else w1
      assembleLoop s cfg (n.repliedTo.bind s) chain' w2
    else (chain, warnings)
termination_by cfg.maxMessages - chain.length
decreasing_by simp_wf; omega

/-- History assembly (lines 132-143): run the walk from the leaf and prepend
the system prompt; the chain is reversed into chronological order
(`messages = get_system_prompt() + reply_chain[::-1]`). -/
def assembleHistory (s : Store) (cfg : Config) (leafId : Nat)
    (systemPrompt : List PromptEntry) : List PromptEntry × Finset String :=
  let r := assembleLoop s cfg (s leafId) [] ∅
  (systemPrompt ++ r.1.reverse, r.2)

/-- `ChainFrom s cur chain` says that starting from the node referenced by
`cur`, following `replied_to` through the store visits exactly the id/node
pairs in `chain`, ending at a node with no `replied_to`. -/
inductive ChainFrom (s : Store) : Option Nat → List (Nat × MessageNode) → Prop where
  | nil : ChainFrom s none []
  | cons {i : Nat} {n : MessageNode} {rest : List (Nat × MessageNode)} :
      s i = some n → ChainFrom s n.repliedTo rest →
      ChainFrom s (some i) ((i, n) :: rest)

/-! ## The streaming render scheduler (lines 147-188) -/

/-- Observable actions of the scheduler, in program order:

* `create b r d c fields` — `reply_message.reply(embed=embed, silent=True)`
  creating outgoing block `b` as a reply to block/message `r`, with embed
  description `d`, color `c` and the sorted warning fields (lines 160-170);
* `appendText b t` — `response_message_contents[-1] += previous_content`
  (line 174), recording that block `b`'s accumulated text became `t`;
* `editTask tid b d c` — `asyncio.create_task(response_messages[-1].edit(embed=embed))`
  (line 186), dispatching edit task `tid` for block `b` with new
  description `d` and color `c`;
* `waitDone tid` — the cooperative wait
  `while edit_message_task and not edit_message_task.done(): await asyncio.sleep(0)`
  (lines 182-183), ensuring task `tid` has completed. -/
inductive Event where
  | create (blockId : Nat) (replyTo : Nat) (descr : String) (color : Color)
      (fields : List String)
  | appendText (blockId : Nat) (newText : String)
  | editTask (taskId : Nat) (blockId : Nat) (descr : String) (color : Color)
  | waitDone (taskId : Nat)
deriving DecidableEq

/-- The mutable loop state of the scheduler (lines 147-150 plus the shared
`in_progress_message_ids` list), together with the event trace, a counter
allocating the platform ids of created blocks, a counter allocating edit
task identities, and the iteration counter used to index the throttle
oracle. -/
structure StreamState where
  responseMessages : List Nat
  responseMessageContents : List String
  previousContent : Option String
  editMessageTask : Option Nat
  nextTaskId : Nat
  nextBlockId : Nat
  inProgress : List Nat
  events : List Event
  iter : Nat
deriving DecidableEq

/-- Per-response environment of the scheduler: the id of the triggering
request message (`message`) and the sorted warning strings rendered as embed
fields at block creation (lines 163-164). -/
structure SchedEnv where
  requestId : Nat
  warningFields : List String
deriving DecidableEq

/-- Initial scheduler state: empty lists, `previous_content = None`
(line 149), `edit_message_task = None` (line 150); `firstBlockId` is the
platform id the next created block will receive, and `inProgress0` is the
content of the global `in_progress_message_ids` list when the response
starts. -/
def initState (firstBlockId : Nat) (inProgress0 : List Nat) : StreamState where
  responseMessages := []
  responseMessageContents := []
  previousContent := none
  editMessageTask := none
  nextTaskId := 0
  nextBlockId := firstBlockId
  inProgress := inProgress0
  events := []
  iter := 0

/-- `response_message_contents[-1]` (the list is nonempty wherever the
program indexes it). -/
def lastStr (l : List String) : String := l.getLastD ""

/-- `response_message_contents[-1] += previous_content`: append to the last
entry. -/
def appendLast : List String → String → List String
  | [], s => [s]
  | [a], s => [a ++ s]
  | a :: b :: rest, s => a :: appendLast (b :: rest) s

/-- Lines 159-173: if there is no open block yet, or appending the previous
fragment to the current block would exceed `EMBED_MAX_LENGTH`, create a new
outgoing block (replying to the request for the first block, to the previous
block otherwise), register its id in `in_progress_message_ids`, and start a
fresh contents entry. -/
def maybeCreate (env : SchedEnv) (st : StreamState) (prev cur : String) : StreamState :=
  if st.responseMessages = [] ∨
      EMBED_MAX_LENGTH < (lastStr st.responseMessageContents ++ prev).length then
    let replyTo :=
      if st.responseMessages = [] then env.requestId
      else st.responseMessages.getLastD 0
    let color := if cur = "" then EMBED_COLOR "complete" else EMBED_COLOR "incomplete"
    { st with
      responseMessages := st.responseMessages ++ [st.nextBlockId]
      responseMessageContents := st.responseMessageContents ++ [""]
      inProgress := st.inProgress ++ [st.nextBlockId]
      nextBlockId := st.nextBlockId + 1
      events := st.events ++ [Event.create st.nextBlockId replyTo prev color env.warningFields] }
  else st

/-- The cooperative wait on the outstanding edit task (lines 182-183):
`while edit_message_task and not edit_message_task.done(): await asyncio.sleep(0)`. -/
def waitPrev (st : StreamState) : StreamState :=
  match st.editMessageTask with
  | some t => { st with events := st.events ++ [Event.waitDone t] }
  | none => st

/-- Lines 175-187: if the block's accumulated text differs from the fragment
just appended, decide whether to push an edit now: unconditionally when this
is the final edit for the block (the next fragment is empty or would
overflow the cap), otherwise only when the throttle oracle allows it.
Before dispatching, the outstanding edit task (if any) is waited on. -/
def maybeEdit (st : StreamState) (prev cur : String) (throttleOk : Bool) : StreamState :=
  if lastStr st.responseMessageContents ≠ prev then
    let finalEdit :=
      EMBED_MAX_LENGTH < (lastStr st.responseMessageContents ++ cur).length ∨ cur = ""
    if finalEdit ∨ throttleOk then
      let st1 := waitPrev st
      let color := if finalEdit then EMBED_COLOR "complete" else EMBED_COLOR "incomplete"
      { st1 with
        events := st1.events ++
          [Event.editTask st1.nextTaskId (st1.responseMessages.getLastD 0)
            (lastStr st1.responseMessageContents) color]
        editMessageTask := some st1.nextTaskId
        nextTaskId := st1.nextTaskId + 1 }
    else st
  else st

/-- Line 174, `response_message_contents[-1] += previous_content`, recorded
in the trace as an `appendText` event carrying the new accumulated text of
the current block. -/
def appendStep (st1 : StreamState) (prev : String) : StreamState :=
  { st1 with
    responseMessageContents := appendLast st1.responseMessageContents prev
    events := st1.events ++
      [Event.appendText (st1.responseMessages.getLastD 0)
        (lastStr (appendLast st1.responseMessageContents prev))] }

/-- One iteration of the `async for` loop (lines 157-188) on fragment
`cur` (`chunk.choices[0].delta.content or ""`).  The body runs only when
`previous_content` is truthy (neither `None` nor the empty string); at the
end `previous_content = current_content`. -/
def stepChunk (env : SchedEnv) (oracle : Nat → Bool) (st : StreamState)
    (cur : String) : StreamState :=
  let st' :=
    match st.previousContent with
    | none => st
    | some prev =>
      if prev = "" then st
      else maybeEdit (appendStep (maybeCreate env st prev cur) prev) prev cur (oracle st.iter)
  { st' with previousContent := some cur, iter := st.iter + 1 }

/-- The whole streaming loop over a finite fragment sequence. -/
def runStream (env : SchedEnv) (oracle : Nat → Bool) (st : StreamState)
    (frags : List String) : StreamState :=
  frags.foldl (stepChunk env oracle) st

/-! ## Post-stream bookkeeping (lines 190-227) -/

/-- The loop on lines 218-227: for each created block, store a fresh
assistant `MessageNode` whose content is the join of all segment texts
(`"".join(response_message_contents)`) and whose `replied_to` is the node of
the triggering request, and remove the block id from
`in_progress_message_ids` (Python `list.remove` deletes the first
occurrence, as does `List.erase`). -/
def cleanupLoop (botUserId requestId : Nat) (contents : List String) :
    List Nat → Store → List Nat → Store × List Nat
  | [], store, inprog => (store, inprog)
  | b :: bs, store, inprog =>
    cleanupLoop botUserId requestId contents bs
      (store.insert b
        { message :=
            { role := "assistant"
              content := MsgContent.flat (String.join contents)
              name := toString botUserId }
          tooManyImages := false
          repliedTo := some requestId })
      (inprog.erase b)

/-- The code following the streaming loop (lines 190-227).  The
`if 'draw me' in message.content.lower():` block contains, at its end, the
cleanup loop that creates the bot-reply `MessageNode`s and deregisters the
block ids; when the stable-diffusion call fails the `else:` branch replies
with an error and `return`s before reaching the cleanup, and when the
message does not contain `'draw me'` the cleanup is never reached at all. -/
def handleAfterStream (requestContent : String) (sdSuccess : Bool)
    (botUserId requestId : Nat) (store : Store) (st : StreamState) :
    Store × List Nat :=
  if strContains (pyLower requestContent) "draw me" then
    if sdSuccess then
      cleanupLoop botUserId requestId st.responseMessageContents
        st.responseMessages store st.inProgress
    else
      (store, st.inProgress)
  else
    (store, st.inProgress)

/-! ## Derived observations on the event trace -/

/-- The rendered (description, color) carried by an event, when the event
renders a block: creations and edits. -/
def renderOf : Event → Option (Nat × String × Color)
  | Event.create b _ d c _ => some (b, d, c)
  | Event.editTask _ b d c => some (b, d, c)
  | _ => none

/-- The text-extension recorded by an event, if any. -/
def appendOf : Event → Option (Nat × String)
  | Event.appendText b t => some (b, t)
  | _ => none

/-- The block creation recorded by an event, if any: (block id, reply
target). -/
def createOf : Event → Option (Nat × Nat)
  | Event.create b r _ _ _ => some (b, r)
  | _ => none

/-- The last rendered state (description, color) of block `b` in a trace. -/
def lastRenderFor (evs : List Event) (b : Nat) : Option (String × Color) :=
  evs.foldl
    (fun acc e =>
      match renderOf e with
      | some (b', d, c) => if b' = b then some (d, c) else acc
      | none => acc)
    none

/-- All block creations of a trace, in order. -/
def creates (evs : List Event) : List (Nat × Nat) :=
  evs.filterMap createOf

/-- `linked r bs` is the expected creation list when the blocks `bs` form a
reply chain rooted at `r`: the first block replies to `r`, each subsequent
block to its predecessor. -/
def linked (r : Nat) : List Nat → List (Nat × Nat)
  | [] => []
  | b :: bs => (b, r) :: linked b bs

/-- The pending fragment (`previous_content or ""`). -/
def pendStr (st : StreamState) : String := st.previousContent.getD ""

/-- The outgoing block an event refers to, if any. -/
def eventBlock : Event → Option Nat
  | Event.create b _ _ _ _ => some b
  | Event.appendText b _ => some b
  | Event.editTask _ b _ _ => some b
  | Event.waitDone _ => none

/-- Some event of the trace renders block `b` with description `d` and the
complete color. -/
def GreenIn (evs : List Event) (b : Nat) (d : String) : Prop :=
  ∃ e ∈ evs, renderOf e = some (b, d, Color.green)

/-- Some event of the trace extends block `b`'s text to `t`. -/
def AppendIn (evs : List Event) (b : Nat) (t : String) : Prop :=
  ∃ e ∈ evs, appendOf e = some (b, t)

/-- The trace never extends a block's text beyond a state it has already
rendered as complete: any append to block `b` placed after a complete-color
render of `b` carries exactly the rendered description. -/
def TraceOk (evs : List Event) : Prop :=
  ∀ (i j : Nat) (ei ej : Event) (b : Nat) (d t : String),
    i < j → evs[i]? = some ei → evs[j]? = some ej →
    renderOf ei = some (b, d, Color.green) → appendOf ej = some (b, t) → t = d

/-- Every cooperative wait in the trace is immediately followed by the
dispatch of a further edit: waits only ever serialize consecutive edits, so
nothing ever awaits the last dispatched edit. -/
def WaitsPrecedeEdits (evs : List Event) : Prop :=
  ∀ (i t : Nat), evs[i]? = some (Event.waitDone t) →
    ∃ tid b d c, evs[i + 1]? = some (Event.editTask tid b d c)

/-- Two adjacent fragments fit together within the platform cap. -/
def fitsCap (a b : String) : Prop := (a ++ b).length ≤ EMBED_MAX_LENGTH

/-- A well-formed completion stream: finite, terminated by the empty
fragment, with every non-terminal fragment nonempty and any two consecutive
fragments jointly within the platform cap. -/
def goodFrags (fs : List String) : Prop :=
  fs.getLast? = some "" ∧ (∀ f ∈ fs.dropLast, f ≠ "") ∧ fs.Chain' fitsCap

/-- The inductive invariant of the streaming state machine used for the
status claims, for runs over well-formed streams. -/
structure SchedInv (firstId : Nat) (st : StreamState) : Prop where
  lenEq : st.responseMessageContents.length = st.responseMessages.length
  blocks : st.responseMessages = List.range' firstId st.responseMessages.length
  nextBlock : st.nextBlockId = firstId + st.responseMessages.length
  evBound : ∀ e ∈ st.events, ∀ b, eventBlock e = some b → b < st.nextBlockId
  lastNe : st.responseMessages ≠ [] → lastStr st.responseMessageContents ≠ ""
  emptyNoEvents : st.responseMessages = [] → st.events = []
  pendNone : st.previousContent = none → st.responseMessages = [] ∧ st.events = []
  traceOk : TraceOk st.events
  greenFinal : ∀ b d, GreenIn st.events b d →
    lastRenderFor st.events b = some (d, Color.green)
  greenPend : ∀ d, GreenIn st.events (st.responseMessages.getLastD 0) d →
    d = lastStr st.responseMessageContents ∧
      ∀ q, st.previousContent = some q → q ≠ "" →
        EMBED_MAX_LENGTH < (lastStr st.responseMessageContents ++ q).length
  overflowGreen : ∀ q, st.previousContent = some q → q ≠ "" →
    st.responseMessages ≠ [] →
    EMBED_MAX_LENGTH < (lastStr st.responseMessageContents ++ q).length →
    GreenIn st.events (st.responseMessages.getLastD 0) (lastStr st.responseMessageContents)
  closedGreen : ∀ b ∈ st.responseMessages.dropLast, ∃ d, GreenIn st.events b d
  pendEmptyAll : st.previousContent = some "" →
    ∀ b ∈ st.responseMessages, ∃ d, GreenIn st.events b d

/-- `FetchPath fetch m ms r`: starting at message `m`, following reply
references upward, the fetcher successfully produces exactly the messages of
`ms` (with `m` first), until the last message's reference `r` fails to fetch
with `NotFound` or an `HTTPException`. -/
inductive FetchPath (fetch : Nat → FetchResult) : Msg → List Msg → Nat → Prop where
  | last {m : Msg} {r : Nat} : m.reference = some r →
      (fetch r = FetchResult.notFound ∨ fetch r = FetchResult.httpError) →
      FetchPath fetch m [m] r
  | step {m next : Msg} {rest : List Msg} {r : Nat} :
      m.reference = some next.id → fetch next.id = FetchResult.ok next →
      FetchPath fetch next rest r →
      FetchPath fetch m (m :: rest) r

/-- The store produced by walking the messages of a path in order: each
message's node is inserted, and the previous message's node is then linked
to it — exactly the store operations the ascent performs on its non-cached,
successful path. -/
def expectedStore (cfg : Config) : Store → Option Nat → List Msg → Store
  | store, _, [] => store
  | store, prevId, m :: rest =>
    let store1 := store.insert m.id (buildNode cfg m)
    let store2 :=
      match prevId with
      | some pid => store1.setRepliedTo pid m.id
      | none => store1
    expectedStore cfg store2 (some m.id) rest

/-- The id/node pairs the finished walk leaves in the store for a path:
every node is the built node of its message, linked to the next message of
the path, the last one left unlinked (the chain was truncated there). -/
def linkedNodes (cfg : Config) : List Msg → List (Nat × MessageNode)
  | [] => []
  | [m] => [(m.id, buildNode cfg m)]
  | m :: next :: rest =>
    (m.id, { buildNode cfg m with repliedTo := some next.id }) ::
      linkedNodes cfg (next :: rest)

/-! ## Basic lemmas about the scheduler's list operations -/

theorem foldl_strAppend_init (l : List String) (a b : String) :
    l.foldl (fun r s => r ++ s) (a ++ b) = a ++ l.foldl (fun r s => r ++ s) b := by
  induction l generalizing b with
  | nil => rfl
  | cons c l ih =>
    simp only [List.foldl_cons, String.append_assoc, ih]

theorem join_cons (a : String) (l : List String) :
    String.join (a :: l) = a ++ String.join l := by
  show List.foldl _ ("" ++ a) l = _
  rw [String.empty_append, ← String.append_empty a, String.append_assoc,
    String.empty_append, foldl_strAppend_init]
  rfl

theorem join_concat (l : List String) (s : String) :
    String.join (l ++ [s]) = String.join l ++ s := by
  show List.foldl _ _ _ = _
  rw [List.foldl_append]
  rfl

theorem join_nil : String.join [] = "" := rfl

theorem join_appendLast (l : List String) (s : String) :
    String.join (appendLast l s) = String.join l ++ s := by
  induction l with
  | nil => simp [appendLast, join_cons, join_nil]
  | cons a l ih =>
    cases l with
    | nil => simp [appendLast, join_cons, join_nil, String.append_assoc]
    | cons b rest =>
      simp only [appendLast, join_cons, ih, String.append_assoc]

theorem appendLast_eq (l : List String) (s : String) (h : l ≠ []) :
    appendLast l s = l.dropLast ++ [lastStr l ++ s] := by
  induction l with
  | nil => exact absurd rfl h
  | cons a l ih =>
    cases l with
    | nil => simp [appendLast, lastStr]
    | cons b rest =>
      rw [appendLast, ih (by simp),
        List.dropLast_cons_of_ne_nil (l := b :: rest) (by simp)]
      simp [lastStr, List.getLastD_cons]

theorem mem_appendLast {c : String} {l : List String} {s : String}
    (h : c ∈ appendLast l s) : c ∈ l.dropLast ∨ c = lastStr l ++ s := by
  cases l with
  | nil =>
    right
    simp only [appendLast, List.mem_singleton] at h
    simp [h, lastStr]
  | cons a l =>
    rw [appendLast_eq _ _ (by simp)] at h
    rcases List.mem_append.1 h with h' | h'
    · exact Or.inl h'
    · exact Or.inr (List.mem_singleton.1 h')

theorem length_appendLast (l : List String) (s : String) (h : l ≠ []) :
    (appendLast l s).length = l.length := by
  rw [appendLast_eq _ _ h]
  have := List.length_pos.2 h
  simp [List.length_dropLast]
  omega

theorem runStream_nil (env : SchedEnv) (o : Nat → Bool) (st : StreamState) :
    runStream env o st [] = st := rfl

theorem runStream_cons (env : SchedEnv) (o : Nat → Bool) (st : StreamState)
    (f : String) (fs : List String) :
    runStream env o st (f :: fs) = runStream env o (stepChunk env o st f) fs := rfl

theorem runStream_append (env : SchedEnv) (o : Nat → Bool) (st : StreamState)
    (xs ys : List String) :
    runStream env o st (xs ++ ys) = runStream env o (runStream env o st xs) ys := by
  simp [runStream, List.foldl_append]

theorem waitPrev_contents (st : StreamState) :
    (waitPrev st).responseMessageContents = st.responseMessageContents := by
  unfold waitPrev
  cases st.editMessageTask <;> rfl

theorem waitPrev_responseMessages (st : StreamState) :
    (waitPrev st).responseMessages = st.responseMessages := by
  unfold waitPrev
  cases st.editMessageTask <;> rfl

theorem waitPrev_inProgress (st : StreamState) :
    (waitPrev st).inProgress = st.inProgress := by
  unfold waitPrev
  cases st.editMessageTask <;> rfl

theorem waitPrev_nextBlockId (st : StreamState) :
    (waitPrev st).nextBlockId = st.nextBlockId := by
  unfold waitPrev
  cases st.editMessageTask <;> rfl

theorem maybeEdit_contents (st : StreamState) (prev cur : String) (b : Bool) :
    (maybeEdit st prev cur b).responseMessageContents = st.responseMessageContents := by
  unfold maybeEdit
  split
  · dsimp only
    split
    · exact waitPrev_contents st
    · rfl
  · rfl

theorem maybeEdit_responseMessages (st : StreamState) (prev cur : String) (b : Bool) :
    (maybeEdit st prev cur b).responseMessages = st.responseMessages := by
  unfold maybeEdit
  split
  · dsimp only
    split
    · exact waitPrev_responseMessages st
    · rfl
  · rfl

theorem maybeEdit_inProgress (st : StreamState) (prev cur : String) (b : Bool) :
    (maybeEdit st prev cur b).inProgress = st.inProgress := by
  unfold maybeEdit
  split
  · dsimp only
    split
    · exact waitPrev_inProgress st
    · rfl
  · rfl

theorem maybeEdit_nextBlockId (st : StreamState) (prev cur : String) (b : Bool) :
    (maybeEdit st prev cur b).nextBlockId = st.nextBlockId := by
  unfold maybeEdit
  split
  · dsimp only
    split
    · exact waitPrev_nextBlockId st
    · rfl
  · rfl

theorem stepChunk_previousContent (env : SchedEnv) (o : Nat → Bool) (st : StreamState)
    (cur : String) : (stepChunk env o st cur).previousContent = some cur := rfl

theorem contents_stepChunk (env : SchedEnv) (o : Nat → Bool) (st : StreamState)
    (cur : String) :
    (stepChunk env o st cur).responseMessageContents =
      match st.previousContent with
      | none => st.responseMessageContents
      | some prev =>
        if prev = "" then st.responseMessageContents
        else appendLast (maybeCreate env st prev cur).responseMessageContents prev := by
  unfold stepChunk
  cases st.previousContent with
  | none => rfl
  | some prev =>
    by_cases hp : prev = "" <;> simp [hp, maybeEdit_contents, appendStep]

theorem maybeCreate_join (env : SchedEnv) (st : StreamState) (prev cur : String) :
    String.join (maybeCreate env st prev cur).responseMessageContents =
      String.join st.responseMessageContents := by
  unfold maybeCreate
  split
  · dsimp only
    rw [join_concat]
    simp
  · rfl

theorem join_stepChunk (env : SchedEnv) (o : Nat → Bool) (st : StreamState) (cur : String) :
    String.join (stepChunk env o st cur).responseMessageContents ++
        pendStr (stepChunk env o st cur) =
      (String.join st.responseMessageContents ++ pendStr st) ++ cur := by
  have hp : pendStr (stepChunk env o st cur) = cur := by
    rw [pendStr, stepChunk_previousContent]
    rfl
  rw [hp, contents_stepChunk]
  cases h : st.previousContent with
  | none => simp [pendStr, h]
  | some prev =>
    by_cases hp' : prev = ""
    · simp [hp', pendStr, h]
    · simp only [hp', if_false, pendStr, h, Option.getD_some,
        join_appendLast, maybeCreate_join]

theorem pend_runStream (env : SchedEnv) (o : Nat → Bool) :
    ∀ (fs : List String) (st : StreamState), fs ≠ [] →
      (runStream env o st fs).previousContent = fs.getLast? := by
  intro fs
  induction fs with
  | nil => intro st h; exact absurd rfl h
  | cons f fs ih =>
    intro st _
    cases fs with
    | nil =>
      rw [runStream_cons, runStream_nil, stepChunk_previousContent]
      rfl
    | cons g gs =>
      rw [runStream_cons, ih _ (by simp)]
      rfl

theorem join_runStream (env : SchedEnv) (o : Nat → Bool) :
    ∀ (fs : List String) (st : StreamState),
      String.join (runStream env o st fs).responseMessageContents ++
          pendStr (runStream env o st fs) =
        (String.join st.responseMessageContents ++ pendStr st) ++ String.join fs := by
  intro fs
  induction fs with
  | nil => intro st; simp [runStream_nil, join_nil]
  | cons f fs ih =>
    intro st
    rw [runStream_cons, ih, join_stepChunk, join_cons, String.append_assoc]

/-! ## Characterizations of the three phases of a loop iteration -/

theorem maybeCreate_pos (env : SchedEnv) (st : StreamState) (prev cur : String)
    (h : st.responseMessages = [] ∨
      EMBED_MAX_LENGTH < (lastStr st.responseMessageContents ++ prev).length) :
    maybeCreate env st prev cur =
      { st with
        responseMessages := st.responseMessages ++ [st.nextBlockId]
        responseMessageContents := st.responseMessageContents ++ [""]
        inProgress := st.inProgress ++ [st.nextBlockId]
        nextBlockId := st.nextBlockId + 1
        events := st.events ++
          [Event.create st.nextBlockId
            (if st.responseMessages = [] then env.requestId
             else st.responseMessages.getLastD 0)
            prev
            (if cur = "" then EMBED_COLOR "complete" else EMBED_COLOR "incomplete")
            env.warningFields] } := by
  unfold maybeCreate
  rw [if_pos h]

theorem maybeCreate_neg (env : SchedEnv) (st : StreamState) (prev cur : String)
    (h : ¬ (st.responseMessages = [] ∨
      EMBED_MAX_LENGTH < (lastStr st.responseMessageContents ++ prev).length)) :
    maybeCreate env st prev cur = st := by
  unfold maybeCreate
  rw [if_neg h]

theorem waitPrev_eq_none (st : StreamState) (h : st.editMessageTask = none) :
    waitPrev st = st := by
  unfold waitPrev
  rw [h]

theorem waitPrev_eq_some (st : StreamState) (t : Nat) (h : st.editMessageTask = some t) :
    waitPrev st = { st with events := st.events ++ [Event.waitDone t] } := by
  unfold waitPrev
  rw [h]

theorem maybeEdit_dispatch (st : StreamState) (prev cur : String) (throttleOk : Bool)
    (h1 : lastStr st.responseMessageContents ≠ prev)
    (h2 : (EMBED_MAX_LENGTH < (lastStr st.responseMessageContents ++ cur).length ∨ cur = "") ∨
      throttleOk = true) :
    maybeEdit st prev cur throttleOk =
      { waitPrev st with
        events := (waitPrev st).events ++
          [Event.editTask st.nextTaskId (st.responseMessages.getLastD 0)
            (lastStr st.responseMessageContents)
            (if EMBED_MAX_LENGTH < (lastStr st.responseMessageContents ++ cur).length ∨ cur = ""
             then EMBED_COLOR "complete" else EMBED_COLOR "incomplete")]
        editMessageTask := some st.nextTaskId
        nextTaskId := st.nextTaskId + 1 } := by
  unfold maybeEdit
  rw [if_pos h1]
  dsimp only
  rw [if_pos h2]
  have ha : (waitPrev st).nextTaskId = st.nextTaskId := by
    unfold waitPrev; cases st.editMessageTask <;> rfl
  have hb : (waitPrev st).responseMessages = st.responseMessages :=
    waitPrev_responseMessages st
  have hc : (waitPrev st).responseMessageContents = st.responseMessageContents :=
    waitPrev_contents st
  rw [ha, hb, hc]

theorem maybeEdit_skip (st : StreamState) (prev cur : String) (throttleOk : Bool)
    (h2 : ¬ ((EMBED_MAX_LENGTH < (lastStr st.responseMessageContents ++ cur).length ∨ cur = "") ∨
      throttleOk = true)) :
    maybeEdit st prev cur throttleOk = st := by
  unfold maybeEdit
  split
  · dsimp only
    rw [if_neg h2]
  · rfl

theorem maybeEdit_noGuard (st : StreamState) (prev cur : String) (throttleOk : Bool)
    (h1 : lastStr st.responseMessageContents = prev) :
    maybeEdit st prev cur throttleOk = st := by
  unfold maybeEdit
  rw [if_neg (by simp [h1])]

theorem stepChunk_main (env : SchedEnv) (o : Nat → Bool) (st : StreamState)
    (prev cur : String) (h : st.previousContent = some prev) (hne : prev ≠ "") :
    stepChunk env o st cur =
      { maybeEdit (appendStep (maybeCreate env st prev cur) prev) prev cur (o st.iter) with
        previousContent := some cur, iter := st.iter + 1 } := by
  unfold stepChunk
  rw [h]
  simp [hne]

theorem stepChunk_skip (env : SchedEnv) (o : Nat → Bool) (st : StreamState)
    (cur : String) (h : st.previousContent = none ∨ st.previousContent = some "") :
    stepChunk env o st cur =
      { st with previousContent := some cur, iter := st.iter + 1 } := by
  unfold stepChunk
  rcases h with h | h <;> rw [h]
  simp

theorem contents_stepChunk_main (env : SchedEnv) (o : Nat → Bool) (st : StreamState)
    (prev cur : String) (h : st.previousContent = some prev) (hne : prev ≠ "") :
    (stepChunk env o st cur).responseMessageContents =
      appendLast (maybeCreate env st prev cur).responseMessageContents prev := by
  rw [stepChunk_main env o st prev cur h hne]
  show (maybeEdit (appendStep (maybeCreate env st prev cur) prev) prev cur
    (o st.iter)).responseMessageContents = _
  rw [maybeEdit_contents]
  rfl

/-! ## The created blocks form a reply chain rooted at the request (C10) -/

theorem creates_append (evs l : List Event) :
    creates (evs ++ l) = creates evs ++ creates l := by
  simp [creates, List.filterMap_append]

theorem creates_maybeEdit (st : StreamState) (prev cur : String) (b : Bool) :
    creates (maybeEdit st prev cur b).events = creates st.events := by
  unfold maybeEdit
  split
  · dsimp only
    split
    · unfold waitPrev
      cases st.editMessageTask <;> simp [creates_append, creates, createOf]
    · rfl
  · rfl

theorem creates_appendStep (st : StreamState) (prev : String) :
    creates (appendStep st prev).events = creates st.events := by
  simp [appendStep, creates_append, creates, createOf]

theorem appendStep_responseMessages (st : StreamState) (prev : String) :
    (appendStep st prev).responseMessages = st.responseMessages := rfl

theorem appendStep_nextBlockId (st : StreamState) (prev : String) :
    (appendStep st prev).nextBlockId = st.nextBlockId := rfl

theorem appendStep_inProgress (st : StreamState) (prev : String) :
    (appendStep st prev).inProgress = st.inProgress := rfl

theorem appendStep_contents (st : StreamState) (prev : String) :
    (appendStep st prev).responseMessageContents =
      appendLast st.responseMessageContents prev := rfl

theorem appendStep_events (st : StreamState) (prev : String) :
    (appendStep st prev).events = st.events ++
      [Event.appendText (st.responseMessages.getLastD 0)
        (lastStr (appendLast st.responseMessageContents prev))] := rfl

theorem linked_concat (r : Nat) (bs : List Nat) (b : Nat) :
    linked r (bs ++ [b]) = linked r bs ++ [(b, bs.getLastD r)] := by
  induction bs generalizing r with
  | nil => simp [linked]
  | cons c cs ih =>
    simp only [List.cons_append, linked, List.getLastD_cons]
    rw [List.append_eq, ih c]

theorem getLastD_irrel (l : List Nat) (h : l ≠ []) (a b : Nat) :
    l.getLastD a = l.getLastD b := by
  cases l with
  | nil => exact absurd rfl h
  | cons c cs => simp only [List.getLastD_cons]

theorem structInv_step (env : SchedEnv) (o : Nat → Bool) (firstId : Nat)
    (st : StreamState) (cur : String)
    (h1 : st.responseMessages = List.range' firstId st.responseMessages.length)
    (h2 : st.nextBlockId = firstId + st.responseMessages.length)
    (h3 : creates st.events = linked env.requestId st.responseMessages) :
    (stepChunk env o st cur).responseMessages =
        List.range' firstId (stepChunk env o st cur).responseMessages.length ∧
      (stepChunk env o st cur).nextBlockId =
        firstId + (stepChunk env o st cur).responseMessages.length ∧
      creates (stepChunk env o st cur).events =
        linked env.requestId (stepChunk env o st cur).responseMessages := by
  rcases hpc : st.previousContent with _ | prev
  · rw [stepChunk_skip env o st cur (Or.inl hpc)]
    exact ⟨h1, h2, h3⟩
  · by_cases hpe : prev = ""
    · rw [stepChunk_skip env o st cur (Or.inr (hpe ▸ hpc))]
      exact ⟨h1, h2, h3⟩
    · rw [stepChunk_main env o st prev cur hpc hpe]
      by_cases hcr : st.responseMessages = [] ∨
          EMBED_MAX_LENGTH < (lastStr st.responseMessageContents ++ prev).length
      · rw [maybeCreate_pos env st prev cur hcr]
        simp only [maybeEdit_responseMessages, maybeEdit_nextBlockId, creates_maybeEdit,
          creates_appendStep, appendStep_responseMessages, appendStep_nextBlockId,
          appendStep_events]
        refine ⟨?_, ?_, ?_⟩
        · simp only [List.length_append, List.length_singleton]
          rw [List.range'_1_concat, ← h2, ← h1]
        · simp only [List.length_append, List.length_singleton]
          omega
        · rw [creates_append, creates_append, h3, linked_concat]
          by_cases hmt : st.responseMessages = []
          · simp [hmt, creates, createOf]
          · simp only [if_neg hmt, creates, createOf, List.filterMap_cons, List.filterMap_nil]
            rw [getLastD_irrel st.responseMessages hmt 0 env.requestId]
            simp
      · rw [maybeCreate_neg env st prev cur hcr]
        simp only [maybeEdit_responseMessages, maybeEdit_nextBlockId, creates_maybeEdit,
          creates_appendStep, appendStep_responseMessages, appendStep_nextBlockId]
        exact ⟨h1, h2, h3⟩

theorem structInv_runStream (env : SchedEnv) (o : Nat → Bool) (firstId : Nat)
    (inprog : List Nat) (fs : List String) :
    (runStream env o (initState firstId inprog) fs).responseMessages =
        List.range' firstId
          (runStream env o (initState firstId inprog) fs).responseMessages.length ∧
      (runStream env o (initState firstId inprog) fs).nextBlockId =
        firstId + (runStream env o (initState firstId inprog) fs).responseMessages.length ∧
      creates (runStream env o (initState firstId inprog) fs).events =
        linked env.requestId
          (runStream env o (initState firstId inprog) fs).responseMessages := by
  suffices h : ∀ (fs : List String) (st : StreamState),
      st.responseMessages = List.range' firstId st.responseMessages.length →
      st.nextBlockId = firstId + st.responseMessages.length →
      creates st.events = linked env.requestId st.responseMessages →
      (runStream env o st fs).responseMessages =
          List.range' firstId (runStream env o st fs).responseMessages.length ∧
        (runStream env o st fs).nextBlockId =
          firstId + (runStream env o st fs).responseMessages.length ∧
        creates (runStream env o st fs).events =
          linked env.requestId (runStream env o st fs).responseMessages by
    exact h fs (initState firstId inprog) (by simp [initState]) (by simp [initState])
      (by simp [initState, creates, linked])
  intro fs
  induction fs with
  | nil => intro st a b c; exact ⟨a, b, c⟩
  | cons f fs ih =>
    intro st a b c
    rw [runStream_cons]
    obtain ⟨a', b', c'⟩ := structInv_step env o firstId st f a b c
    exact ih _ a' b' c'

theorem linked_getD (r : Nat) (bs : List Nat) :
    ∀ i, i < (linked r bs).length →
      ((linked r bs).getD i (0, 0)).2 =
        if i = 0 then r else ((linked r bs).getD (i - 1) (0, 0)).1 := by
  induction bs generalizing r with
  | nil => intro i hi; simp [linked] at hi
  | cons b bs ih =>
    intro i hi
    match i with
    | 0 => simp [linked]
    | Nat.succ j =>
      have hj : j < (linked b bs).length := by
        simpa [linked] using hi
      have := ih b j hj
      match j with
      | 0 =>
        simp only [linked, List.getD_cons_succ, List.getD_cons_zero] at this ⊢
        rw [this]
        simp [linked]
      | Nat.succ k =>
        simp only [linked, List.getD_cons_succ] at this ⊢
        rw [this]
        simp

/-- Claim C10: for every response, the first created block replies to the
triggering request message, and every subsequent block replies to the block
created immediately before it, so the rendered blocks form a reply chain
rooted at the request. -/
theorem c10_reply_chain (env : SchedEnv) (oracle : Nat → Bool) (firstId : Nat)
    (inprog : List Nat) (fs : List String) (i : Nat)
    (hi : i < (creates (runStream env oracle (initState firstId inprog) fs).events).length) :
    ((creates (runStream env oracle (initState firstId inprog) fs).events).getD i (0, 0)).2 =
      if i = 0 then env.requestId
      else ((creates (runStream env oracle (initState firstId inprog) fs).events).getD
        (i - 1) (0, 0)).1 := by
  obtain ⟨-, -, hc⟩ := structInv_runStream env oracle firstId inprog fs
  rw [hc] at hi ⊢
  exact linked_getD env.requestId _ i hi

/-- A run on a single nonempty fragment followed by the terminal fragment:
one block is created carrying the whole fragment, whatever its size. -/
theorem runStream_single (env : SchedEnv) (o : Nat → Bool) (firstId : Nat)
    (inprog : List Nat) (s : String) (hs : s ≠ "") :
    runStream env o (initState firstId inprog) [s, ""] =
      { responseMessages := [firstId]
        responseMessageContents := [s]
        previousContent := some ""
        editMessageTask := none
        nextTaskId := 0
        nextBlockId := firstId + 1
        inProgress := inprog ++ [firstId]
        events := [Event.create firstId env.requestId s Color.green env.warningFields,
          Event.appendText firstId s]
        iter := 2 } := by
  have h1 : stepChunk env o (initState firstId inprog) s =
      { initState firstId inprog with previousContent := some s, iter := 1 } :=
    stepChunk_skip env o _ s (Or.inl rfl)
  rw [runStream_cons, h1, runStream_cons, runStream_nil]
  rw [stepChunk_main env o _ s "" rfl hs]
  rw [maybeCreate_pos env _ s "" (Or.inl rfl)]
  simp only [initState]
  rw [maybeEdit_noGuard _ _ _ _ (by simp [appendStep, lastStr, appendLast])]
  simp [appendStep, appendLast, lastStr, EMBED_COLOR]

/-- A run on two nonempty fragments that jointly overflow the cap, followed
by the terminal fragment: two blocks are created; the first is created with
the incomplete color and is never edited afterwards, so it is never rendered
complete. -/
theorem runStream_twoSegments (env : SchedEnv) (o : Nat → Bool) (firstId : Nat)
    (inprog : List Nat) (s t : String) (hs : s ≠ "") (ht : t ≠ "")
    (hlen : EMBED_MAX_LENGTH < s.length + t.length) :
    runStream env o (initState firstId inprog) [s, t, ""] =
      { responseMessages := [firstId, firstId + 1]
        responseMessageContents := [s, t]
        previousContent := some ""
        editMessageTask := none
        nextTaskId := 0
        nextBlockId := firstId + 2
        inProgress := inprog ++ [firstId, firstId + 1]
        events := [Event.create firstId env.requestId s Color.orange env.warningFields,
          Event.appendText firstId s,
          Event.create (firstId + 1) firstId t Color.green env.warningFields,
          Event.appendText (firstId + 1) t]
        iter := 3 } := by
  have h1 : stepChunk env o (initState firstId inprog) s =
      { initState firstId inprog with previousContent := some s, iter := 1 } :=
    stepChunk_skip env o _ s (Or.inl rfl)
  rw [runStream_cons, h1, runStream_cons]
  rw [stepChunk_main env o _ s t rfl hs]
  rw [maybeCreate_pos env _ s t (Or.inl rfl)]
  simp only [initState]
  rw [maybeEdit_noGuard _ _ _ _ (by simp [appendStep, lastStr, appendLast])]
  rw [runStream_cons, runStream_nil]
  rw [stepChunk_main env o _ t "" rfl ht]
  rw [maybeCreate_pos env _ t ""
    (by
      right
      simp only [appendStep, appendLast, lastStr]
      simp [List.getLastD, String.length_append]
      omega)]
  rw [maybeEdit_noGuard _ _ _ _ (by simp [appendStep, lastStr, appendLast])]
  simp [appendStep, appendLast, lastStr, EMBED_COLOR, List.getLastD_cons, ht]

/-- Claim C1 (code bug): the identifiers registered in
`in_progress_message_ids` during a response are supposed to be removed again
before the handler exits, on all paths.  On an ordinary chat request whose
content does not contain `'draw me'` (here `"hello"`, stream `["Hi", ""]`),
the response creates one outgoing block, whose id stays in the registry
forever: the cleanup loop on lines 218-227 sits inside the
`if 'draw me' ...` branch and is never reached. -/
theorem c1_inflight_leak :
    (runStream ⟨1, []⟩ (fun _ => false) (initState 100 []) ["Hi", ""]).responseMessages
        = [100] ∧
      (handleAfterStream "hello" true 42 1 emptyStore
        (runStream ⟨1, []⟩ (fun _ => false) (initState 100 []) ["Hi", ""])).2 = [100] :=
  ⟨by decide, by decide⟩

set_option maxHeartbeats 1000000 in
/-- Claim C2: for every fragment sequence ending in the empty terminal
fragment, the concatenation of all segment texts equals the concatenation of
the non-terminal fragments; and the example stream
`["Hel", "lo ", "world", ""]` produces exactly one segment whose final text
is `"Hello world"`, rendered with the complete color, under every throttle
oracle. -/
theorem c2_total_text :
    (∀ (env : SchedEnv) (oracle : Nat → Bool) (firstId : Nat) (inprog : List Nat)
        (fs : List String), fs.getLast? = some "" →
        String.join (runStream env oracle (initState firstId inprog) fs).responseMessageContents =
          String.join fs.dropLast) ∧
      (∀ oracle : Nat → Bool,
        (runStream ⟨1, []⟩ oracle (initState 100 []) ["Hel", "lo ", "world", ""]).responseMessageContents
            = ["Hello world"] ∧
          (runStream ⟨1, []⟩ oracle (initState 100 []) ["Hel", "lo ", "world", ""]).responseMessages
            = [100] ∧
          lastRenderFor
              (runStream ⟨1, []⟩ oracle (initState 100 []) ["Hel", "lo ", "world", ""]).events
              100
            = some ("Hello world", Color.green)) := by
  constructor
  · intro env oracle firstId inprog fs hlast
    have hne : fs ≠ [] := by rintro rfl; simp at hlast
    have hg : fs.getLast hne = "" := by
      have h := List.getLast?_eq_getLast fs hne
      rw [hlast] at h
      exact (Option.some_inj.1 h).symm
    have hsplit : fs.dropLast ++ [""] = fs := by
      rw [← hg]
      exact List.dropLast_concat_getLast hne
    have h1 := join_runStream env oracle fs (initState firstId inprog)
    have h2 : pendStr (runStream env oracle (initState firstId inprog) fs) = "" := by
      rw [pendStr, pend_runStream env oracle fs _ hne, hlast]
      rfl
    rw [h2] at h1
    have h3 : String.join fs = String.join fs.dropLast := by
      conv_lhs => rw [← hsplit]
      rw [join_concat, String.append_empty]
    simpa [initState, join_nil, pendStr, h3] using h1
  · intro oracle
    have e1 : ("" ++ "Hel" : String) = "Hel" := rfl
    have e2 : ("Hel" ++ "lo " : String) = "Hello " := rfl
    have e3 : ("Hello " ++ "world" : String) = "Hello world" := rfl
    have l1 : ("Hel" : String).length = 3 := rfl
    have l2 : ("Hello " : String).length = 6 := rfl
    have l3 : ("Hello world" : String).length = 11 := rfl
    refine ⟨?_, ?_, ?_⟩ <;>
      cases h2 : oracle 2 <;>
        simp [runStream, List.foldl, stepChunk, maybeCreate, appendStep, maybeEdit,
          waitPrev, initState, lastStr, appendLast, lastRenderFor, renderOf,
          EMBED_COLOR, EMBED_MAX_LENGTH, h2, e1, e2, e3, l1, l2, l3]

/-- Claim C3 fails as stated: a single fragment longer than
`EMBED_MAX_LENGTH` is rendered into one block whose text exceeds the cap
(the creation path puts the whole pending fragment into the fresh block
without any size check on the fragment itself). -/
theorem c3_counterexample :
    ∃ c ∈ (runStream ⟨1, []⟩ (fun _ => false) (initState 100 [])
        [(List.replicate 4097 'x').asString, ""]).responseMessageContents,
      EMBED_MAX_LENGTH < c.length := by
  have hne : (List.replicate 4097 'x').asString ≠ "" := by
    intro h
    have hl := congrArg String.length h
    rw [List.length_asString, List.length_replicate] at hl
    exact absurd hl (by decide)
  have h1 := runStream_single ⟨1, []⟩ (fun _ => false) 100 [] _ hne
  refine ⟨(List.replicate 4097 'x').asString, ?_, ?_⟩
  · rw [h1]
    exact List.mem_singleton_self _
  · rw [List.length_asString, List.length_replicate]
    decide

/-- Claim C3, amended: provided every fragment of the stream is itself
within `EMBED_MAX_LENGTH`, no segment's accumulated text ever exceeds
`EMBED_MAX_LENGTH` (quantifying over all fragment sequences covers every
step of the scheduler, since every prefix of a stream is itself a stream). -/
theorem c3_cap_invariant (env : SchedEnv) (oracle : Nat → Bool) (firstId : Nat)
    (inprog : List Nat) (fs : List String)
    (hs : ∀ f ∈ fs, f.length ≤ EMBED_MAX_LENGTH) :
    ∀ c ∈ (runStream env oracle (initState firstId inprog) fs).responseMessageContents,
      c.length ≤ EMBED_MAX_LENGTH := by
  suffices h : ∀ (fs : List String) (st : StreamState),
      (∀ f ∈ fs, f.length ≤ EMBED_MAX_LENGTH) →
      (∀ c ∈ st.responseMessageContents, c.length ≤ EMBED_MAX_LENGTH) →
      (∀ p, st.previousContent = some p → p.length ≤ EMBED_MAX_LENGTH) →
      ∀ c ∈ (runStream env oracle st fs).responseMessageContents,
        c.length ≤ EMBED_MAX_LENGTH by
    exact h fs (initState firstId inprog) hs (by simp [initState]) (by simp [initState])
  intro fs
  induction fs with
  | nil => intro st _ hc _; exact hc
  | cons f fs ih =>
    intro st hf hc hp
    rw [runStream_cons]
    refine ih _ (fun g hg => hf g (List.mem_cons_of_mem f hg)) ?_ ?_
    · intro c hcmem
      rcases hpc : st.previousContent with _ | prev
      · rw [stepChunk_skip env oracle st f (Or.inl hpc)] at hcmem
        exact hc c hcmem
      · by_cases hpe : prev = ""
        · rw [stepChunk_skip env oracle st f (Or.inr (hpe ▸ hpc))] at hcmem
          exact hc c hcmem
        · rw [contents_stepChunk_main env oracle st prev f hpc hpe] at hcmem
          have hplen : prev.length ≤ EMBED_MAX_LENGTH := hp prev hpc
          by_cases hcr : st.responseMessages = [] ∨
              EMBED_MAX_LENGTH < (lastStr st.responseMessageContents ++ prev).length
          · rw [maybeCreate_pos env st prev f hcr] at hcmem
            simp only at hcmem
            rcases mem_appendLast hcmem with hin | heq
            · rw [List.dropLast_concat] at hin
              exact hc c hin
            · rw [heq, lastStr, List.getLastD_concat]
              simpa using hplen
          · rw [maybeCreate_neg env st prev f hcr] at hcmem
            push_neg at hcr
            rcases mem_appendLast hcmem with hin | heq
            · exact hc c (List.dropLast_subset _ hin)
            · rw [heq]
              have := hcr.2
              rw [String.length_append] at this
              rw [String.length_append]
              omega
    · intro p hps
      rw [stepChunk_previousContent] at hps
      rw [← Option.some_inj.1 hps]
      exact hf f (List.mem_cons_self f fs)

/-! ## The post-stream cleanup loop (C6) -/

theorem cleanupLoop_store_notmem (botId reqId : Nat) (contents : List String) :
    ∀ (bs : List Nat) (store : Store) (inprog : List Nat) (j : Nat), j ∉ bs →
      (cleanupLoop botId reqId contents bs store inprog).1 j = store j := by
  intro bs
  induction bs with
  | nil => intro store inprog j _; rfl
  | cons b rest ih =>
    intro store inprog j hj
    have hjb : j ≠ b := fun h => hj (h ▸ List.mem_cons_self b rest)
    simp only [cleanupLoop]
    rw [ih _ _ j (fun h => hj (List.mem_cons_of_mem b h))]
    simp [Store.insert, hjb]

theorem cleanupLoop_store_mem (botId reqId : Nat) (contents : List String) :
    ∀ (bs : List Nat) (store : Store) (inprog : List Nat) (b : Nat),
      b ∈ bs → bs.Nodup →
      (cleanupLoop botId reqId contents bs store inprog).1 b =
        some { message :=
                { role := "assistant"
                  content := MsgContent.flat (String.join contents)
                  name := toString botId }
               tooManyImages := false
               repliedTo := some reqId } := by
  intro bs
  induction bs with
  | nil => intro store inprog b hb; simp at hb
  | cons c rest ih =>
    intro store inprog b hb hnd
    simp only [cleanupLoop]
    rcases List.mem_cons.1 hb with rfl | hb'
    · have hnot : b ∉ rest := (List.nodup_cons.1 hnd).1
      rw [cleanupLoop_store_notmem _ _ _ _ _ _ b hnot]
      simp [Store.insert]
    · exact ih _ _ b hb' (List.nodup_cons.1 hnd).2

theorem cleanupLoop_inprog (botId reqId : Nat) (contents : List String) :
    ∀ (bs : List Nat) (store : Store) (inprog : List Nat),
      (cleanupLoop botId reqId contents bs store inprog).2 =
        bs.foldl List.erase inprog := by
  intro bs
  induction bs with
  | nil => intro store inprog; rfl
  | cons b rest ih =>
    intro store inprog
    simp only [cleanupLoop, ih, List.foldl_cons]

/-- Claim C6, amended: the bot-reply `MessageNode`s are created only when the
post-stream cleanup block is actually reached — the request must contain
`'draw me'` and the image call must succeed — and then one node is created
per segment block, with role assistant, `repliedTo` pointing at the request
node, but with content equal to the join of ALL segment texts
(`"".join(response_message_contents)`), not the individual segment's text;
the block's id is also removed from the in-progress registry. -/
theorem c6_cleanup_nodes (requestContent : String) (botId reqId : Nat)
    (store : Store) (st : StreamState) (b : Nat)
    (hdraw : strContains (pyLower requestContent) "draw me" = true)
    (hb : b ∈ st.responseMessages) (hnd : st.responseMessages.Nodup) :
    (handleAfterStream requestContent true botId reqId store st).1 b =
      some { message :=
              { role := "assistant"
                content := MsgContent.flat (String.join st.responseMessageContents)
                name := toString botId }
             tooManyImages := false
             repliedTo := some reqId } ∧
    (handleAfterStream requestContent true botId reqId store st).2 =
      st.responseMessages.foldl List.erase st.inProgress := by
  unfold handleAfterStream
  rw [hdraw]
  simp only [if_true]
  exact ⟨cleanupLoop_store_mem botId reqId _ _ store st.inProgress b hb hnd,
    cleanupLoop_inprog botId reqId _ _ store st.inProgress⟩

/-- Claim C6 fails as stated, in two ways.  (A) On a request without
`'draw me'` (content `"hello"`), a segment block (id 100) is produced but no
`MessageNode` is ever created for it — the cleanup block is unreachable.
(B) When the cleanup does run (content `"draw me a cat"`, image call
succeeds) and the response produced two segments, the node stored for the
first block carries the concatenation of both segment texts, not that
individual segment's text. -/
theorem c6_counterexample :
    ((runStream ⟨1, []⟩ (fun _ => false) (initState 100 []) ["Hi", ""]).responseMessages
        = [100] ∧
      (handleAfterStream "hello" true 42 1 emptyStore
        (runStream ⟨1, []⟩ (fun _ => false) (initState 100 []) ["Hi", ""])).1 100 = none) ∧
    (∀ n : MessageNode,
      (handleAfterStream "draw me a cat" true 42 1 emptyStore
          (runStream ⟨1, []⟩ (fun _ => false) (initState 100 [])
            [(List.replicate 4000 'a').asString, (List.replicate 2000 'b').asString, ""])).1 100
        = some n →
      n.message.content ≠ MsgContent.flat ((List.replicate 4000 'a').asString)) := by
  constructor
  · exact ⟨by decide, by decide⟩
  · intro n hn
    have hs : (List.replicate 4000 'a').asString ≠ "" := by
      intro h
      have hl := congrArg String.length h
      rw [List.length_asString, List.length_replicate] at hl
      exact absurd hl (by decide)
    have ht : (List.replicate 2000 'b').asString ≠ "" := by
      intro h
      have hl := congrArg String.length h
      rw [List.length_asString, List.length_replicate] at hl
      exact absurd hl (by decide)
    have hlen : EMBED_MAX_LENGTH <
        (List.replicate 4000 'a').asString.length +
          (List.replicate 2000 'b').asString.length := by
      rw [List.length_asString, List.length_asString, List.length_replicate,
        List.length_replicate]
      decide
    rw [runStream_twoSegments ⟨1, []⟩ (fun _ => false) 100 [] _ _ hs ht hlen] at hn
    have hmem := c6_cleanup_nodes "draw me a cat" 42 1 emptyStore
      { responseMessages := [100, 101]
        responseMessageContents :=
          [(List.replicate 4000 'a').asString, (List.replicate 2000 'b').asString]
        previousContent := some ""
        editMessageTask := none
        nextTaskId := 0
        nextBlockId := 102
        inProgress := [] ++ [100, 101]
        events := [Event.create 100 1 (List.replicate 4000 'a').asString Color.orange [],
          Event.appendText 100 (List.replicate 4000 'a').asString,
          Event.create 101 100 (List.replicate 2000 'b').asString Color.green [],
          Event.appendText 101 (List.replicate 2000 'b').asString]
        iter := 3 } 100 (by decide) (by simp) (by simp)
    rw [hmem.1] at hn
    have hneq := Option.some_inj.1 hn
    rw [← hneq]
    dsimp only
    simp only [ne_eq, MsgContent.flat.injEq]
    intro habs
    have hl := congrArg String.length habs
    simp only [join_cons, join_nil, String.append_empty, String.length_append,
      List.length_asString, List.length_replicate] at hl
    exact absurd hl (by decide)

/-! ## Waits only ever precede further edits (C5) -/

theorem waitsPrecede_append (evs tail : List Event)
    (h1 : WaitsPrecedeEdits evs) (h2 : WaitsPrecedeEdits tail) :
    WaitsPrecedeEdits (evs ++ tail) := by
  intro i t hit
  by_cases hlt : i + 1 < evs.length
  · rw [List.getElem?_append_left (by omega)] at hit
    obtain ⟨tid, b, d, c, hc⟩ := h1 i t hit
    exact ⟨tid, b, d, c, by rw [List.getElem?_append_left hlt]; exact hc⟩
  · by_cases hi : i < evs.length
    · have hieq : i = evs.length - 1 := by omega
      rw [List.getElem?_append_left hi] at hit
      obtain ⟨tid, b, d, c, hc⟩ := h1 i t hit
      rw [List.getElem?_eq_none (by omega)] at hc
      exact absurd hc (by simp)
    · rw [List.getElem?_append_right (by omega)] at hit
      obtain ⟨tid, b, d, c, hc⟩ := h2 (i - evs.length) t hit
      refine ⟨tid, b, d, c, ?_⟩
      rw [List.getElem?_append_right (by omega)]
      have : i + 1 - evs.length = i - evs.length + 1 := by omega
      rw [this]
      exact hc

theorem waitsPrecede_stepChunk (env : SchedEnv) (o : Nat → Bool) (st : StreamState)
    (cur : String) (h : WaitsPrecedeEdits st.events) :
    WaitsPrecedeEdits (stepChunk env o st cur).events := by
  rcases hpc : st.previousContent with _ | prev
  · rw [stepChunk_skip env o st cur (Or.inl hpc)]
    exact h
  · by_cases hpe : prev = ""
    · rw [stepChunk_skip env o st cur (Or.inr (hpe ▸ hpc))]
      exact h
    · rw [stepChunk_main env o st prev cur hpc hpe]
      show WaitsPrecedeEdits (maybeEdit (appendStep (maybeCreate env st prev cur) prev)
        prev cur (o st.iter)).events
      have hmc : WaitsPrecedeEdits (maybeCreate env st prev cur).events := by
        by_cases hcr : st.responseMessages = [] ∨
            EMBED_MAX_LENGTH < (lastStr st.responseMessageContents ++ prev).length
        · rw [maybeCreate_pos env st prev cur hcr]
          refine waitsPrecede_append _ _ h ?_
          intro i t hit
          match i with
          | 0 => simp at hit
          | i + 1 => simp at hit
        · rw [maybeCreate_neg env st prev cur hcr]
          exact h
      have hap : WaitsPrecedeEdits (appendStep (maybeCreate env st prev cur) prev).events := by
        rw [appendStep_events]
        refine waitsPrecede_append _ _ hmc ?_
        intro i t hit
        match i with
        | 0 => simp at hit
        | i + 1 => simp at hit
      set st2 := appendStep (maybeCreate env st prev cur) prev with hst2
      by_cases hg : lastStr st2.responseMessageContents ≠ prev
      · by_cases hfin : (EMBED_MAX_LENGTH <
            (lastStr st2.responseMessageContents ++ cur).length ∨ cur = "") ∨
            (o st.iter) = true
        · rw [maybeEdit_dispatch st2 prev cur (o st.iter) hg hfin]
          show WaitsPrecedeEdits ((waitPrev st2).events ++ _)
          rcases het : st2.editMessageTask with _ | tid
          · rw [waitPrev_eq_none st2 het]
            refine waitsPrecede_append _ _ hap ?_
            intro i t hit
            match i with
            | 0 => simp at hit
            | i + 1 => simp at hit
          · rw [waitPrev_eq_some st2 tid het]
            show WaitsPrecedeEdits ((st2.events ++ [Event.waitDone tid]) ++ _)
            rw [List.append_assoc]
            refine waitsPrecede_append _ _ hap ?_
            intro i t hit
            match i with
            | 0 => exact ⟨st2.nextTaskId, st2.responseMessages.getLastD 0, _, _, rfl⟩
            | 1 => simp at hit
            | i + 2 => simp at hit
        · rw [maybeEdit_skip st2 prev cur (o st.iter) hfin]
          exact hap
      · rw [maybeEdit_noGuard st2 prev cur (o st.iter) (not_not.1 hg)]
        exact hap

/-- Claim C5, amended: (1) whenever the scheduler reaches an edit decision
whose final-edit condition holds (the next fragment is empty or would
overflow the block), the complete-status edit is dispatched unconditionally,
for every value of the throttle; (2) in every run, a cooperative wait on an
edit task occurs only immediately before dispatching a further edit — in
particular the response's last dispatched edit (the finalizing one) is never
awaited before the handler proceeds. -/
theorem c5_final_edit :
    (∀ (st : StreamState) (prev cur : String) (throttleOk : Bool),
      lastStr st.responseMessageContents ≠ prev →
      (EMBED_MAX_LENGTH < (lastStr st.responseMessageContents ++ cur).length ∨ cur = "") →
      (maybeEdit st prev cur throttleOk).events =
        (waitPrev st).events ++
          [Event.editTask st.nextTaskId (st.responseMessages.getLastD 0)
            (lastStr st.responseMessageContents) (EMBED_COLOR "complete")]) ∧
    (∀ (env : SchedEnv) (oracle : Nat → Bool) (firstId : Nat) (inprog : List Nat)
      (fs : List String),
      WaitsPrecedeEdits (runStream env oracle (initState firstId inprog) fs).events) := by
  constructor
  · intro st prev cur throttleOk h1 h2
    rw [maybeEdit_dispatch st prev cur throttleOk h1 (Or.inl h2)]
    simp only [if_pos h2]
  · intro env oracle firstId inprog fs
    suffices h : ∀ (fs : List String) (st : StreamState), WaitsPrecedeEdits st.events →
        WaitsPrecedeEdits (runStream env oracle st fs).events by
      refine h fs (initState firstId inprog) ?_
      intro i t hit
      simp [initState] at hit
    intro fs
    induction fs with
    | nil => intro st h; exact h
    | cons f fs ih =>
      intro st h
      rw [runStream_cons]
      exact ih _ (waitsPrecede_stepChunk env oracle st f h)

/-- Claim C5 fails as stated, in two ways.  (A) With two nonempty fragments
that jointly overflow the cap, the first segment's block is created with the
incomplete color and never edited afterwards: its finalizing complete edit
is never dispatched (creation coincided with its only append, so the edit
guard `response_message_contents[-1] != previous_content` blocks it, and the
overflow then moves all later edits to the new block).  (B) In the run
`["Hi", "!", ""]` the finalizing edit (task 0) is dispatched as the last
event and no wait on it ever occurs: completion of the final edit is not
awaited before the handler proceeds. -/
theorem c5_counterexample :
    lastRenderFor
        (runStream ⟨1, []⟩ (fun _ => false) (initState 100 [])
          [(List.replicate 4000 'a').asString, (List.replicate 2000 'b').asString, ""]).events
        100
      = some ((List.replicate 4000 'a').asString, Color.orange) ∧
    ((runStream ⟨1, []⟩ (fun _ => false) (initState 100 []) ["Hi", "!", ""]).events =
      [Event.create 100 1 "Hi" Color.orange [], Event.appendText 100 "Hi",
        Event.appendText 100 "Hi!", Event.editTask 0 100 "Hi!" Color.green] ∧
      Event.waitDone 0 ∉
        (runStream ⟨1, []⟩ (fun _ => false) (initState 100 []) ["Hi", "!", ""]).events) := by
  refine ⟨?_, by decide, by decide⟩
  have hs : (List.replicate 4000 'a').asString ≠ "" := by
    intro h
    have hl := congrArg String.length h
    rw [List.length_asString, List.length_replicate] at hl
    exact absurd hl (by decide)
  have ht : (List.replicate 2000 'b').asString ≠ "" := by
    intro h
    have hl := congrArg String.length h
    rw [List.length_asString, List.length_replicate] at hl
    exact absurd hl (by decide)
  have hlen : EMBED_MAX_LENGTH <
      (List.replicate 4000 'a').asString.length +
        (List.replicate 2000 'b').asString.length := by
    rw [List.length_asString, List.length_asString, List.length_replicate,
      List.length_replicate]
    decide
  rw [runStream_twoSegments ⟨1, []⟩ (fun _ => false) 100 [] _ _ hs ht hlen]
  have hgen : ∀ (dA dB : String) (c2 : Color),
      lastRenderFor [Event.create 100 1 dA Color.orange [], Event.appendText 100 dA,
        Event.create 101 100 dB c2 [], Event.appendText 101 dB] 100 =
        some (dA, Color.orange) := by
    intro dA dB c2
    simp [lastRenderFor, renderOf]
  exact hgen _ _ _

/-! ## The history assembler (C7, C8, C9) -/

theorem warn_ne (a b : Nat) : maxImageWarning a ≠ maxMessageWarning b := by
  intro h
  have h4 := congrArg (fun s : String => s.data[3]?) h
  simp only at h4
  have hr : (maxMessageWarning b).data[3]? = some 'O' := by
    show (("⚠️ Only using last " ++ toString b ++ " messages").data)[3]? = some 'O'
    rw [String.data_append,
      List.getElem?_append_left (by
        rw [String.data_append, List.length_append]
        have h7 : 3 < ("⚠️ Only using last ".data).length := by decide
        omega),
      String.data_append, List.getElem?_append_left (by decide)]
    decide
  rw [hr] at h4
  by_cases ha : a > 0
  · have hil : maxImageWarning a =
        "⚠️ Max " ++ toString a ++ " image" ++
          (if a == 1 then "" else "s") ++ " per message" := by
      unfold maxImageWarning
      rw [if_pos ha]
    rw [hil] at h4
    rw [show (("⚠️ Max " ++ toString a ++ " image" ++
        (if a == 1 then "" else "s") ++ " per message").data)[3]? = some 'M' from ?_] at h4
    · exact absurd (Option.some_inj.1 h4) (by decide)
    · rw [String.data_append,
        List.getElem?_append_left (by
          rw [String.data_append, List.length_append, String.data_append,
            List.length_append, String.data_append, List.length_append]
          have h7 : 3 < ("⚠️ Max ".data).length := by decide
          omega),
        String.data_append,
        List.getElem?_append_left (by
          rw [String.data_append, List.length_append, String.data_append,
            List.length_append]
          have h7 : 3 < ("⚠️ Max ".data).length := by decide
          omega),
        String.data_append,
        List.getElem?_append_left (by
          rw [String.data_append, List.length_append]
          have h7 : 3 < ("⚠️ Max ".data).length := by decide
          omega),
        String.data_append, List.getElem?_append_left (by decide)]
      decide
  · rw [show maxImageWarning a = "⚠️ Can\x27t see images" from by
      unfold maxImageWarning; rw [if_neg ha]] at h4
    exact absurd (Option.some_inj.1 h4) (by decide)

theorem assembleLoop_none (s : Store) (cfg : Config) (chain : List PromptEntry)
    (ws : Finset String) : assembleLoop s cfg none chain ws = (chain, ws) := by
  rw [assembleLoop]

theorem assembleLoop_stop (s : Store) (cfg : Config) (n : MessageNode)
    (chain : List PromptEntry) (ws : Finset String)
    (h : ¬ chain.length < cfg.maxMessages) :
    assembleLoop s cfg (some n) chain ws = (chain, ws) := by
  rw [assembleLoop, if_neg h]

theorem assembleLoop_go (s : Store) (cfg : Config) (n : MessageNode)
    (chain : List PromptEntry) (ws : Finset String)
    (h : chain.length < cfg.maxMessages) :
    assembleLoop s cfg (some n) chain ws =
      assembleLoop s cfg (n.repliedTo.bind s) (chain ++ [n.message])
        (if (chain ++ [n.message]).length = cfg.maxMessages ∧ n.repliedTo.isSome then
          insert (maxMessageWarning cfg.maxMessages)
            (if n.tooManyImages then insert (maxImageWarning cfg.maxImages) ws else ws)
         else
          (if n.tooManyImages then insert (maxImageWarning cfg.maxImages) ws else ws)) := by
  rw [assembleLoop, if_pos h]

theorem ChainFrom.none_eq {s : Store} {chain : List (Nat × MessageNode)}
    (h : ChainFrom s none chain) : chain = [] := by
  cases h
  rfl

theorem ChainFrom.cons_ne {s : Store} {j : Nat} {chain : List (Nat × MessageNode)}
    (h : ChainFrom s (some j) chain) : chain ≠ [] := by
  cases h
  simp

theorem assembleLoop_entries (s : Store) (cfg : Config) :
    ∀ {cur : Option Nat} {chain : List (Nat × MessageNode)}, ChainFrom s cur chain →
    ∀ (acc : List PromptEntry) (ws : Finset String),
      (assembleLoop s cfg (cur.bind s) acc ws).1 =
        acc ++ (chain.map (fun p => p.2.message)).take
          (cfg.maxMessages - acc.length) := by
  intro cur chain h
  induction h with
  | nil =>
    intro acc ws
    rw [show (Option.bind none s) = none from rfl, assembleLoop_none]
    simp
  | @cons i n rest hsi hrest ih =>
    intro acc ws
    rw [show (Option.bind (some i) s) = s i from rfl, hsi]
    by_cases hlt : acc.length < cfg.maxMessages
    · rw [assembleLoop_go s cfg n acc ws hlt, ih]
      simp only [List.length_append, List.length_singleton, List.map_cons]
      rw [show cfg.maxMessages - acc.length =
        (cfg.maxMessages - (acc.length + 1)) + 1 from by omega]
      rw [List.take_succ_cons]
      simp
    · rw [assembleLoop_stop s cfg n acc ws hlt]
      rw [show cfg.maxMessages - acc.length = 0 from by omega]
      simp

theorem assembleLoop_full (s : Store) (cfg : Config) :
    ∀ {cur : Option Nat} {chain : List (Nat × MessageNode)}, ChainFrom s cur chain →
    (∀ p ∈ chain, p.2.tooManyImages = false) →
    ∀ (acc : List PromptEntry) (ws : Finset String),
      acc.length + chain.length ≤ cfg.maxMessages →
      assembleLoop s cfg (cur.bind s) acc ws =
        (acc ++ chain.map (fun p => p.2.message), ws) := by
  intro cur chain h
  induction h with
  | nil =>
    intro _ acc ws _
    rw [show (Option.bind none s) = none from rfl, assembleLoop_none]
    simp
  | @cons i n rest hsi hrest ih =>
    intro himg acc ws hle
    rw [show (Option.bind (some i) s) = s i from rfl, hsi]
    have hlt : acc.length < cfg.maxMessages := by
      simp only [List.length_cons] at hle
      omega
    rw [assembleLoop_go s cfg n acc ws hlt]
    have himgn : n.tooManyImages = false := himg (i, n) (List.mem_cons_self _ _)
    have hcond : ¬ ((acc ++ [n.message]).length = cfg.maxMessages ∧ n.repliedTo.isSome) := by
      rintro ⟨hlen, hsome⟩
      rcases hrt : n.repliedTo with _ | j
      · rw [hrt] at hsome; simp at hsome
      · rw [hrt] at hrest
        have := hrest.cons_ne
        simp only [List.length_append, List.length_singleton] at hlen
        have hrl : 1 ≤ rest.length := by
          cases rest with
          | nil => exact absurd rfl this
          | cons _ _ => simp
        simp only [List.length_cons] at hle
        omega
    rw [if_neg hcond, himgn]
    simp only [if_false, Bool.false_eq_true]
    rw [ih (fun p hp => himg p (List.mem_cons_of_mem _ hp)) (acc ++ [n.message]) ws
      (by simp at hle ⊢; omega)]
    simp

theorem assembleLoop_trunc (s : Store) (cfg : Config) :
    ∀ {cur : Option Nat} {chain : List (Nat × MessageNode)}, ChainFrom s cur chain →
    (∀ p ∈ chain, p.2.tooManyImages = false) →
    ∀ (acc : List PromptEntry) (ws : Finset String),
      acc.length < cfg.maxMessages →
      cfg.maxMessages < acc.length + chain.length →
      assembleLoop s cfg (cur.bind s) acc ws =
        (acc ++ (chain.map (fun p => p.2.message)).take (cfg.maxMessages - acc.length),
          insert (maxMessageWarning cfg.maxMessages) ws) := by
  intro cur chain h
  induction h with
  | nil =>
    intro _ acc ws hlt hgt
    simp at hgt
    omega
  | @cons i n rest hsi hrest ih =>
    intro himg acc ws hlt hgt
    rw [show (Option.bind (some i) s) = s i from rfl, hsi]
    rw [assembleLoop_go s cfg n acc ws hlt]
    have himgn : n.tooManyImages = false := himg (i, n) (List.mem_cons_self _ _)
    rw [himgn]
    simp only [if_false, Bool.false_eq_true]
    by_cases hsz : (acc ++ [n.message]).length = cfg.maxMessages
    · have hsz' : acc.length + 1 = cfg.maxMessages := by
        simpa using hsz
      have hrl : 1 ≤ rest.length := by
        simp only [List.length_cons] at hgt
        cases rest with
        | nil => simp only [List.length_nil] at hgt ⊢; omega
        | cons _ _ => simp
      rcases hrt : n.repliedTo with _ | j
      · rw [hrt] at hrest
        rw [hrest.none_eq] at hrl
        simp at hrl
      · rw [if_pos ⟨hsz, (rfl : (some j).isSome = true)⟩]
        rw [hrt] at hrest
        rcases hjrest : rest with _ | ⟨p, rest'⟩
        · rw [hjrest] at hrest
          exact absurd rfl hrest.cons_ne
        · rw [hjrest] at hrest
          obtain ⟨n2, hsp, -, -⟩ : ∃ n2, s j = some n2 ∧
              ChainFrom s n2.repliedTo rest' ∧ p = (j, n2) := by
            cases hrest with
            | cons h1 h2 => exact ⟨_, h1, h2, rfl⟩
          rw [show (Option.bind (some j) s) = s j from rfl, hsp]
          rw [assembleLoop_stop s cfg n2 _ _
            (by simp only [List.length_append, List.length_singleton]; omega)]
          rw [show cfg.maxMessages - acc.length = 1 from by omega]
          simp
    · have hlt' : (acc ++ [n.message]).length < cfg.maxMessages := by
        simp only [List.length_append, List.length_singleton] at hsz ⊢
        omega
      rw [if_neg (fun hc => hsz hc.1)]
      rw [ih (fun p hp => himg p (List.mem_cons_of_mem _ hp)) (acc ++ [n.message]) ws hlt'
        (by simp only [List.length_append, List.length_singleton, List.length_cons] at hgt ⊢; omega)]
      simp only [List.length_append, List.length_singleton, List.map_cons]
      rw [show cfg.maxMessages - acc.length =
        (cfg.maxMessages - (acc.length + 1)) + 1 from by omega]
      rw [List.take_succ_cons]
      simp

theorem assembleLoop_ws_mono (s : Store) (cfg : Config) :
    ∀ {cur : Option Nat} {chain : List (Nat × MessageNode)}, ChainFrom s cur chain →
    ∀ (acc : List PromptEntry) (ws : Finset String),
      ws ⊆ (assembleLoop s cfg (cur.bind s) acc ws).2 := by
  intro cur chain h
  induction h with
  | nil =>
    intro acc ws
    rw [show (Option.bind none s) = none from rfl, assembleLoop_none]
  | @cons i n rest hsi hrest ih =>
    intro acc ws
    rw [show (Option.bind (some i) s) = s i from rfl, hsi]
    by_cases hlt : acc.length < cfg.maxMessages
    · rw [assembleLoop_go s cfg n acc ws hlt]
      refine subset_trans ?_ (ih (acc ++ [n.message]) _)
      split
      · refine subset_trans ?_ (Finset.subset_insert _ _)
        split
        · exact Finset.subset_insert _ _
        · exact subset_rfl
      · split
        · exact Finset.subset_insert _ _
        · exact subset_rfl
    · rw [assembleLoop_stop s cfg n acc ws hlt]

theorem assembleLoop_img_mem (s : Store) (cfg : Config) :
    ∀ {cur : Option Nat} {chain : List (Nat × MessageNode)}, ChainFrom s cur chain →
    ∀ (acc : List PromptEntry) (ws : Finset String) (p : Nat × MessageNode),
      p ∈ chain.take (cfg.maxMessages - acc.length) → p.2.tooManyImages = true →
      maxImageWarning cfg.maxImages ∈ (assembleLoop s cfg (cur.bind s) acc ws).2 := by
  intro cur chain h
  induction h with
  | nil =>
    intro acc ws p hp _
    simp at hp
  | @cons i n rest hsi hrest ih =>
    intro acc ws p hp himg
    have hpos : 0 < cfg.maxMessages - acc.length := by
      by_contra hc
      rw [show cfg.maxMessages - acc.length = 0 from by omega] at hp
      simp at hp
    have hlt : acc.length < cfg.maxMessages := by omega
    rw [show (Option.bind (some i) s) = s i from rfl, hsi]
    rw [assembleLoop_go s cfg n acc ws hlt]
    rw [show cfg.maxMessages - acc.length =
      (cfg.maxMessages - (acc.length + 1)) + 1 from by omega, List.take_succ_cons] at hp
    rcases List.mem_cons.1 hp with rfl | hp'
    · have himg' : n.tooManyImages = true := himg
      refine Finset.mem_of_subset (assembleLoop_ws_mono s cfg hrest _ _) ?_
      split
      · exact Finset.mem_insert_of_mem (by simp [himg'])
      · simp [himg']
    · refine ih (acc ++ [n.message]) _ p ?_ himg
      simpa using hp'

theorem assembleLoop_msg_mem (s : Store) (cfg : Config) :
    ∀ {cur : Option Nat} {chain : List (Nat × MessageNode)}, ChainFrom s cur chain →
    ∀ (acc : List PromptEntry) (ws : Finset String),
      maxMessageWarning cfg.maxMessages ∉ ws → acc.length < cfg.maxMessages →
      (maxMessageWarning cfg.maxMessages ∈ (assembleLoop s cfg (cur.bind s) acc ws).2 ↔
        cfg.maxMessages < acc.length + chain.length) := by
  intro cur chain h
  induction h with
  | nil =>
    intro acc ws hws hlt
    rw [show (Option.bind none s) = none from rfl, assembleLoop_none]
    simp only [List.length_nil, Nat.add_zero]
    constructor
    · intro hmem; exact absurd hmem hws
    · intro hgt; omega
  | @cons i n rest hsi hrest ih =>
    intro acc ws hws hlt
    rw [show (Option.bind (some i) s) = s i from rfl, hsi]
    rw [assembleLoop_go s cfg n acc ws hlt]
    have hw1 : maxMessageWarning cfg.maxMessages ∉
        (if n.tooManyImages then insert (maxImageWarning cfg.maxImages) ws else ws) := by
      split
      · rw [Finset.mem_insert]
        rintro (heq | hmem)
        · exact (warn_ne cfg.maxImages cfg.maxMessages) heq.symm
        · exact hws hmem
      · exact hws
    by_cases hcond : (acc ++ [n.message]).length = cfg.maxMessages ∧ n.repliedTo.isSome
    · rw [if_pos hcond]
      constructor
      · intro _
        rcases hrt : n.repliedTo with _ | j
        · rw [hrt] at hcond; simp at hcond
        · rw [hrt] at hrest
          have hne := hrest.cons_ne
          have hrl : 1 ≤ rest.length := by
            cases rest with
            | nil => exact absurd rfl hne
            | cons _ _ => simp
          simp only [List.length_append, List.length_singleton] at hcond
          simp only [List.length_cons]
          omega
      · intro _
        refine Finset.mem_of_subset (assembleLoop_ws_mono s cfg hrest _ _) ?_
        exact Finset.mem_insert_self _ _
    · rw [if_neg hcond]
      by_cases hsz : (acc ++ [n.message]).length = cfg.maxMessages
      · have hnotsome : ¬ n.repliedTo.isSome := fun hs => hcond ⟨hsz, hs⟩
        rcases hrt : n.repliedTo with _ | j
        · rw [hrt] at hrest
          rw [show (Option.bind none s) = none from rfl, assembleLoop_none,
            hrest.none_eq]
          simp only [List.length_cons, List.length_nil]
          constructor
          · intro hmem; exact absurd hmem hw1
          · intro hgt
            have hsz2 : acc.length + 1 = cfg.maxMessages := by simpa using hsz
            omega
        · rw [hrt] at hnotsome; simp at hnotsome
      · have hlt' : (acc ++ [n.message]).length < cfg.maxMessages := by
          simp only [List.length_append, List.length_singleton] at hsz ⊢
          omega
        rw [ih (acc ++ [n.message]) _ hw1 hlt']
        simp only [List.length_append, List.length_singleton, List.length_cons,
          List.length_nil]
        omega

/-- Claim C7: for a reply chain of length `L` without too-many-images nodes
(and a positive history cap), the assembler returns, after the system
prompt, exactly `min L MAX_MESSAGES` entries in chronological order (the
newest `min L MAX_MESSAGES` nodes reversed into oldest-first order); the
warning set is empty when `L ≤ MAX_MESSAGES` and is exactly the
message-count warning otherwise. -/
theorem c7_history (cfg : Config) (s : Store) (leafId : Nat)
    (chain : List (Nat × MessageNode)) (sys : List PromptEntry)
    (hch : ChainFrom s (some leafId) chain)
    (himg : ∀ p ∈ chain, p.2.tooManyImages = false)
    (hm : 1 ≤ cfg.maxMessages) :
    (assembleHistory s cfg leafId sys).1 =
      sys ++ ((chain.map (fun p => p.2.message)).take cfg.maxMessages).reverse ∧
    (assembleHistory s cfg leafId sys).1.length =
      sys.length + min chain.length cfg.maxMessages ∧
    (assembleHistory s cfg leafId sys).2 =
      (if chain.length ≤ cfg.maxMessages then (∅ : Finset String)
       else {maxMessageWarning cfg.maxMessages}) := by
  unfold assembleHistory
  by_cases hlen : chain.length ≤ cfg.maxMessages
  · have key : assembleLoop s cfg (s leafId) [] ∅ =
        ([] ++ chain.map (fun p => p.2.message), ∅) := by
      rw [show (s leafId) = (Option.bind (some leafId) s) from rfl]
      exact assembleLoop_full s cfg hch himg [] ∅ (by simpa using hlen)
    rw [key]
    have htake : (chain.map (fun p => p.2.message)).take cfg.maxMessages =
        chain.map (fun p => p.2.message) :=
      List.take_of_length_le (by simpa using hlen)
    refine ⟨by simp [htake], ?_, by simp [hlen]⟩
    simp only [List.nil_append, List.length_append, List.length_reverse,
      List.length_map]
    rw [Nat.min_eq_left hlen]
  · have key : assembleLoop s cfg (s leafId) [] ∅ =
        ([] ++ (chain.map (fun p => p.2.message)).take (cfg.maxMessages - 0),
          insert (maxMessageWarning cfg.maxMessages) ∅) := by
      rw [show (s leafId) = (Option.bind (some leafId) s) from rfl]
      exact assembleLoop_trunc s cfg hch himg [] ∅ (by simpa using hm)
        (by simp; omega)
    rw [key]
    simp only [Nat.sub_zero, List.nil_append]
    refine ⟨by trivial, ?_, by simp [hlen]⟩
    simp only [List.length_append, List.length_reverse, List.length_take,
      List.length_map]
    rw [Nat.min_comm]

/-- Claim C8, amended: a message whose count of image-typed attachments
exceeds `MAX_IMAGES` yields a node with `tooManyImages = true`; when the
provider supports structured content, the node's content carries the image
parts truncated to exactly `MAX_IMAGES` entries; and every assembled history
whose walked window contains that node includes the image-limit warning. -/
theorem c8_image_cap (cfg : Config) (m : Msg)
    (hcount : cfg.maxImages < (imageParts m).length)
    (hmistral : cfg.isMistral = false) :
    (buildNode cfg m).tooManyImages = true ∧
    (∃ tp : List ContentPart,
      (buildNode cfg m).message.content =
        MsgContent.parts (tp ++ (imageParts m).take cfg.maxImages) ∧
      ((imageParts m).take cfg.maxImages).length = cfg.maxImages) ∧
    (∀ (s : Store) (leafId : Nat) (chain : List (Nat × MessageNode))
        (sys : List PromptEntry) (p : Nat × MessageNode),
      ChainFrom s (some leafId) chain →
      p ∈ chain.take cfg.maxMessages → p.2 = buildNode cfg m →
      maxImageWarning cfg.maxImages ∈ (assembleHistory s cfg leafId sys).2) := by
  have h1 : (buildNode cfg m).tooManyImages = true := by
    simp [buildNode, hcount]
  refine ⟨h1, ?_, ?_⟩
  · have hl : ((imageParts m).take cfg.maxImages).length = cfg.maxImages := by
      rw [List.length_take]
      exact Nat.min_eq_left (Nat.le_of_lt hcount)
    unfold buildNode
    dsimp only
    rw [hmistral]
    simp only [if_false, Bool.false_eq_true]
    exact ⟨_, rfl, hl⟩
  · intro s leafId chain sys p hch hp hp2
    unfold assembleHistory
    dsimp only
    rw [show (s leafId) = (Option.bind (some leafId) s) from rfl]
    refine assembleLoop_img_mem s cfg hch [] ∅ p ?_ ?_
    · simpa using hp
    · rw [hp2]
      exact h1

/-! ## The reply-chain ascent on a failing fetch (C9) -/

theorem Store.insert_self (s : Store) (i : Nat) (n : MessageNode) :
    (s.insert i n) i = some n := by
  simp [Store.insert]

theorem Store.insert_other (s : Store) (i : Nat) (n : MessageNode) (j : Nat)
    (h : j ≠ i) : (s.insert i n) j = s j := by
  simp [Store.insert, h]

theorem Store.setRepliedTo_self (s : Store) (i t : Nat) :
    (s.setRepliedTo i t) i = (s i).map (fun n => { n with repliedTo := some t }) := by
  simp [Store.setRepliedTo]

theorem Store.setRepliedTo_other (s : Store) (i t j : Nat) (h : j ≠ i) :
    (s.setRepliedTo i t) j = s j := by
  simp [Store.setRepliedTo, h]

theorem Store.setRepliedTo_none (s : Store) (i t j : Nat) (h : s j = none) :
    (s.setRepliedTo i t) j = none := by
  unfold Store.setRepliedTo
  split
  · rw [h]; rfl
  · exact h

theorem FetchPath.head_eq {fetch : Nat → FetchResult} {m : Msg} {path : List Msg}
    {r : Nat} (h : FetchPath fetch m path r) : ∃ tail, path = m :: tail := by
  cases h with
  | last h1 h2 => exact ⟨[], rfl⟩
  | step h1 h2 h3 => exact ⟨_, rfl⟩

theorem buildChainLoop_succ_none (cfg : Config) (fetch : Nat → FetchResult)
    (fuel : Nat) (store : Store) (current : Msg) :
    buildChainLoop cfg fetch (fuel + 1) store current none =
      (match current.reference with
       | none => some (store.insert current.id (buildNode cfg current))
       | some refId =>
         if ((store.insert current.id (buildNode cfg current)) refId).isSome then
           some ((store.insert current.id (buildNode cfg current)).setRepliedTo
             current.id refId)
         else
           match fetch refId with
           | FetchResult.ok next =>
             buildChainLoop cfg fetch fuel
               (store.insert current.id (buildNode cfg current)) next (some current.id)
           | FetchResult.notFound =>
             some (store.insert current.id (buildNode cfg current))
           | FetchResult.httpError =>
             some (store.insert current.id (buildNode cfg current))) := rfl

theorem buildChainLoop_succ_some (cfg : Config) (fetch : Nat → FetchResult)
    (fuel : Nat) (store : Store) (current : Msg) (pid : Nat) :
    buildChainLoop cfg fetch (fuel + 1) store current (some pid) =
      (match current.reference with
       | none =>
         some ((store.insert current.id (buildNode cfg current)).setRepliedTo
           pid current.id)
       | some refId =>
         if (((store.insert current.id (buildNode cfg current)).setRepliedTo
              pid current.id) refId).isSome then
           some (((store.insert current.id (buildNode cfg current)).setRepliedTo
             pid current.id).setRepliedTo current.id refId)
         else
           match fetch refId with
           | FetchResult.ok next =>
             buildChainLoop cfg fetch fuel
               ((store.insert current.id (buildNode cfg current)).setRepliedTo
                 pid current.id) next (some current.id)
           | FetchResult.notFound =>
             some ((store.insert current.id (buildNode cfg current)).setRepliedTo
               pid current.id)
           | FetchResult.httpError =>
             some ((store.insert current.id (buildNode cfg current)).setRepliedTo
               pid current.id)) := rfl

theorem expectedStore_nil (cfg : Config) (store : Store) (prevId : Option Nat) :
    expectedStore cfg store prevId [] = store := rfl

theorem expectedStore_cons_none (cfg : Config) (store : Store) (m : Msg)
    (rest : List Msg) :
    expectedStore cfg store none (m :: rest) =
      expectedStore cfg (store.insert m.id (buildNode cfg m)) (some m.id) rest := rfl

theorem expectedStore_cons_some (cfg : Config) (store : Store) (pid : Nat) (m : Msg)
    (rest : List Msg) :
    expectedStore cfg store (some pid) (m :: rest) =
      expectedStore cfg ((store.insert m.id (buildNode cfg m)).setRepliedTo pid m.id)
        (some m.id) rest := rfl

theorem buildChainLoop_spec (cfg : Config) (fetch : Nat → FetchResult) :
    ∀ {m0 : Msg} {path : List Msg} {r : Nat}, FetchPath fetch m0 path r →
    ∀ (store : Store) (prevId : Option Nat) (fuel : Nat),
      path.length ≤ fuel →
      (∀ m' ∈ path, store m'.id = none) →
      (path.map Msg.id).Nodup →
      store r = none → r ∉ path.map Msg.id →
      buildChainLoop cfg fetch fuel store m0 prevId =
        some (expectedStore cfg store prevId path) := by
  intro m0 path r h
  induction h with
  | @last m rr h1 h2 =>
    intro store prevId fuel hfuel hfresh hnd hr hrnot
    match fuel, hfuel with
    | fuel + 1, _ =>
      have hrne : rr ≠ m.id := by
        intro he
        exact hrnot (by simp [he])
      have hfr : ∀ (st2 : Store), st2 rr = none → (st2 rr).isSome = false := by
        intro st2 hh; rw [hh]; rfl
      rcases prevId with _ | pid
      · rw [buildChainLoop_succ_none, h1]
        have hnone : (store.insert m.id (buildNode cfg m)) rr = none := by
          rw [Store.insert_other _ _ _ _ hrne]; exact hr
        dsimp only
        rw [if_neg (by rw [hnone]; simp)]
        rcases h2 with h2 | h2 <;> rw [h2] <;> rfl
      · rw [buildChainLoop_succ_some, h1]
        have hnone : ((store.insert m.id (buildNode cfg m)).setRepliedTo pid m.id) rr
            = none := by
          apply Store.setRepliedTo_none
          rw [Store.insert_other _ _ _ _ hrne]; exact hr
        dsimp only
        rw [if_neg (by rw [hnone]; simp)]
        rcases h2 with h2 | h2 <;> rw [h2] <;> rfl
  | @step m next rest rr h1 h2 h3 ih =>
    intro store prevId fuel hfuel hfresh hnd hr hrnot
    match fuel, hfuel with
    | fuel + 1, hf =>
      obtain ⟨tail, htail⟩ := h3.head_eq
      have hmem_next : next ∈ rest := by rw [htail]; exact List.mem_cons_self _ _
      have hne : next.id ≠ m.id := by
        intro he
        have : m.id ∈ rest.map Msg.id := he ▸ List.mem_map_of_mem Msg.id hmem_next
        exact (List.nodup_cons.1 (by simpa using hnd)).1 this
      have hnfr : store next.id = none := hfresh next (List.mem_cons_of_mem _ hmem_next)
      have hrec : ∀ (st2 : Store),
          (∀ m' ∈ rest, st2 m'.id = none) → st2 rr = none →
          buildChainLoop cfg fetch fuel st2 next (some m.id) =
            some (expectedStore cfg st2 (some m.id) rest) := by
        intro st2 hfr2 hrr2
        refine ih st2 (some m.id) fuel ?_ hfr2 ?_ hrr2 ?_
        · have : rest.length + 1 ≤ fuel + 1 := by
            simpa using hf
          omega
        · exact (List.nodup_cons.1 (by simpa using hnd)).2
        · intro hmemr
          exact hrnot (by simp [hmemr])
      rcases prevId with _ | pid
      · rw [buildChainLoop_succ_none, h1]
        have hnone : (store.insert m.id (buildNode cfg m)) next.id = none := by
          rw [Store.insert_other _ _ _ _ hne]; exact hnfr
        dsimp only
        rw [if_neg (by rw [hnone]; simp), h2]
        dsimp only
        rw [hrec _ ?_ ?_]
        · rw [expectedStore_cons_none]
        · intro m' hm'
          have hm'ne : m'.id ≠ m.id := by
            intro he
            have : m.id ∈ rest.map Msg.id := he ▸ List.mem_map_of_mem Msg.id hm'
            exact (List.nodup_cons.1 (by simpa using hnd)).1 this
          rw [Store.insert_other _ _ _ _ hm'ne]
          exact hfresh m' (List.mem_cons_of_mem _ hm')
        · have hrm : rr ≠ m.id := by
            intro he
            exact hrnot (by simp [he])
          rw [Store.insert_other _ _ _ _ hrm]
          exact hr
      · rw [buildChainLoop_succ_some, h1]
        have hnone : ((store.insert m.id (buildNode cfg m)).setRepliedTo pid m.id) next.id
            = none := by
          apply Store.setRepliedTo_none
          rw [Store.insert_other _ _ _ _ hne]; exact hnfr
        dsimp only
        rw [if_neg (by rw [hnone]; simp), h2]
        dsimp only
        rw [hrec _ ?_ ?_]
        · rw [expectedStore_cons_some]
        · intro m' hm'
          have hm'ne : m'.id ≠ m.id := by
            intro he
            have : m.id ∈ rest.map Msg.id := he ▸ List.mem_map_of_mem Msg.id hm'
            exact (List.nodup_cons.1 (by simpa using hnd)).1 this
          apply Store.setRepliedTo_none
          rw [Store.insert_other _ _ _ _ hm'ne]
          exact hfresh m' (List.mem_cons_of_mem _ hm')
        · have hrm : rr ≠ m.id := by
            intro he
            exact hrnot (by simp [he])
          apply Store.setRepliedTo_none
          rw [Store.insert_other _ _ _ _ hrm]
          exact hr

theorem expectedStore_notmem (cfg : Config) :
    ∀ (ms : List Msg) (store : Store) (prevId : Option Nat) (j : Nat),
      (∀ m' ∈ ms, j ≠ m'.id) → (∀ p, prevId = some p → j ≠ p) →
      expectedStore cfg store prevId ms j = store j := by
  intro ms
  induction ms with
  | nil => intro store prevId j _ _; rfl
  | cons m rest ih =>
    intro store prevId j hj hp
    have hjm : j ≠ m.id := hj m (List.mem_cons_self _ _)
    have htail : ∀ m' ∈ rest, j ≠ m'.id := fun m' hm' => hj m' (List.mem_cons_of_mem _ hm')
    rcases prevId with _ | pid
    · rw [expectedStore_cons_none, ih _ _ j htail (by rintro p hp2; injection hp2 with h; exact h ▸ hjm)]
      exact Store.insert_other _ _ _ _ hjm
    · rw [expectedStore_cons_some, ih _ _ j htail (by rintro p hp2; injection hp2 with h; exact h ▸ hjm)]
      rw [Store.setRepliedTo_other _ _ _ _ (hp pid rfl)]
      exact Store.insert_other _ _ _ _ hjm

theorem expectedStore_lookup (cfg : Config) :
    ∀ (ms : List Msg) (store : Store) (prevId : Option Nat),
      (ms.map Msg.id).Nodup →
      (∀ p, prevId = some p → p ∉ ms.map Msg.id) →
      ∀ q ∈ linkedNodes cfg ms, expectedStore cfg store prevId ms q.1 = some q.2 := by
  intro ms
  induction ms with
  | nil => intro store prevId _ _ q hq; simp [linkedNodes] at hq
  | cons m rest ih =>
    intro store prevId hnd hprev q hq
    cases rest with
    | nil =>
      simp only [linkedNodes, List.mem_singleton] at hq
      subst hq
      have hlast : ∀ (st2 : Store), st2 m.id = some (buildNode cfg m) →
          expectedStore cfg st2 (some m.id) [] m.id = some (buildNode cfg m) := by
        intro st2 h
        rw [expectedStore_nil]
        exact h
      rcases prevId with _ | pid
      · rw [expectedStore_cons_none]
        exact hlast _ (Store.insert_self _ _ _)
      · rw [expectedStore_cons_some]
        have hpm : pid ≠ m.id := by
          intro he
          exact hprev pid rfl (by simp [he])
        refine hlast _ ?_
        rw [Store.setRepliedTo_other _ _ _ _ (fun he => hpm he.symm)]
        exact Store.insert_self _ _ _
    | cons next rest' =>
      have hmne : m.id ∉ (next :: rest').map Msg.id :=
        (List.nodup_cons.1 (by simpa using hnd)).1
      have hnext_ne : next.id ≠ m.id := by
        intro he
        exact hmne (by simp [he])
      have hstep : ∀ (st2 : Store),
          expectedStore cfg st2 (some m.id) (next :: rest') q.1 = some q.2 →
          True := fun _ _ => trivial
      simp only [linkedNodes, List.mem_cons] at hq
      rcases hq with hq | hq
      · subst hq
        have hkey : ∀ (st2 : Store), st2 m.id = some (buildNode cfg m) →
            expectedStore cfg st2 (some m.id) (next :: rest') m.id =
              some { buildNode cfg m with repliedTo := some next.id } := by
          intro st2 h
          rw [expectedStore_cons_some]
          rw [expectedStore_notmem cfg rest' _ (some next.id) m.id
            (by
              intro m' hm'
              intro he
              exact hmne (by simp [he, List.mem_map_of_mem Msg.id hm']))
            (by rintro p hp2; injection hp2 with hp3; exact hp3 ▸ fun he => hnext_ne he.symm)]
          rw [Store.setRepliedTo_self]
          rw [Store.insert_other _ _ _ _ (fun he => hnext_ne he.symm)]
          rw [h]
          rfl
        rcases prevId with _ | pid
        · rw [expectedStore_cons_none]
          exact hkey _ (Store.insert_self _ _ _)
        · rw [expectedStore_cons_some]
          have hpm : pid ≠ m.id := by
            intro he
            exact hprev pid rfl (by simp [he])
          refine hkey _ ?_
          rw [Store.setRepliedTo_other _ _ _ _ (fun he => hpm he.symm)]
          exact Store.insert_self _ _ _
      · have htail := ih (store.insert m.id (buildNode cfg m)) (some m.id)
          (List.nodup_cons.1 (by simpa using hnd)).2
          (by rintro p hp2; injection hp2 with hp3; exact hp3 ▸ hmne) q hq
        have htail2 := ih ((store.insert m.id (buildNode cfg m)).setRepliedTo
            (Option.getD prevId 0) m.id) (some m.id)
          (List.nodup_cons.1 (by simpa using hnd)).2
          (by rintro p hp2; injection hp2 with hp3; exact hp3 ▸ hmne) q hq
        rcases prevId with _ | pid
        · rw [expectedStore_cons_none]
          exact htail
        · rw [expectedStore_cons_some]
          exact htail2

theorem linkedNodes_length (cfg : Config) :
    ∀ ms : List Msg, (linkedNodes cfg ms).length = ms.length := by
  intro ms
  induction ms with
  | nil => rfl
  | cons m rest ih =>
    cases rest with
    | nil => rfl
    | cons next rest' =>
      simp only [linkedNodes, List.length_cons] at ih ⊢
      omega

theorem buildNode_repliedTo (cfg : Config) (m : Msg) :
    (buildNode cfg m).repliedTo = none := rfl

theorem chainFrom_linkedNodes (cfg : Config) (s : Store) :
    ∀ (rest : List Msg) (m : Msg),
      (∀ q ∈ linkedNodes cfg (m :: rest), s q.1 = some q.2) →
      ChainFrom s (some m.id) (linkedNodes cfg (m :: rest)) := by
  intro rest
  induction rest with
  | nil =>
    intro m hs
    refine ChainFrom.cons (hs (m.id, buildNode cfg m) (by simp [linkedNodes])) ?_
    rw [buildNode_repliedTo]
    exact ChainFrom.nil
  | cons next rest' ih =>
    intro m hs
    show ChainFrom s (some m.id)
      ((m.id, { buildNode cfg m with repliedTo := some next.id }) ::
        linkedNodes cfg (next :: rest'))
    refine ChainFrom.cons
      (hs (m.id, { buildNode cfg m with repliedTo := some next.id })
        (by simp [linkedNodes])) ?_
    show ChainFrom s (some next.id) (linkedNodes cfg (next :: rest'))
    exact ih next (fun q hq => hs q (by simp [linkedNodes, hq]))

/-- Claim C9: when the ascent's fetch of a reply target fails with
`NotFound` or an `HTTPException`, the walk stops there and the handler
proceeds normally (the loop returns a store rather than propagating the
exception, which lines 123-130 catch with `break`): the truncated chain is
stored fully linked, and the assembled history simply has
`min L MAX_MESSAGES` entries for the `L` messages that were resolved, with
the message-count warning present exactly when the `MAX_MESSAGES` cap was
also hit. -/
theorem c9_truncated_walk (cfg : Config) (fetch : Nat → FetchResult) (m0 : Msg)
    (path : List Msg) (r : Nat) (sys : List PromptEntry)
    (hpath : FetchPath fetch m0 path r)
    (hnd : (path.map Msg.id).Nodup)
    (hrnot : r ∉ path.map Msg.id)
    (hm : 1 ≤ cfg.maxMessages) :
    buildChainLoop cfg fetch path.length emptyStore m0 none =
      some (expectedStore cfg emptyStore none path) ∧
    (assembleHistory (expectedStore cfg emptyStore none path) cfg m0.id sys).1.length =
      sys.length + min path.length cfg.maxMessages ∧
    (maxMessageWarning cfg.maxMessages ∈
        (assembleHistory (expectedStore cfg emptyStore none path) cfg m0.id sys).2 ↔
      cfg.maxMessages < path.length) := by
  have hbuild := buildChainLoop_spec cfg fetch hpath emptyStore none path.length
    (Nat.le_refl _) (fun _ _ => rfl) hnd rfl hrnot
  obtain ⟨tail, htail⟩ := hpath.head_eq
  have hlk := expectedStore_lookup cfg path emptyStore none hnd
    (by rintro p hp2; exact absurd hp2 (by simp))
  have hchain : ChainFrom (expectedStore cfg emptyStore none path) (some m0.id)
      (linkedNodes cfg path) := by
    rw [htail] at hlk ⊢
    exact chainFrom_linkedNodes cfg _ tail m0 (fun q hq => hlk q hq)
  refine ⟨hbuild, ?_, ?_⟩
  · unfold assembleHistory
    dsimp only
    rw [show ((expectedStore cfg emptyStore none path) m0.id) =
      (Option.bind (some m0.id) (expectedStore cfg emptyStore none path)) from rfl]
    rw [assembleLoop_entries _ cfg hchain [] ∅]
    simp only [List.length_append, List.nil_append, List.length_reverse,
      List.length_take, List.length_map, List.length_nil, Nat.sub_zero,
      linkedNodes_length]
    rw [Nat.min_comm]
  · unfold assembleHistory
    dsimp only
    rw [show ((expectedStore cfg emptyStore none path) m0.id) =
      (Option.bind (some m0.id) (expectedStore cfg emptyStore none path)) from rfl]
    rw [assembleLoop_msg_mem _ cfg hchain [] ∅ (by simp) (by simpa using hm)]
    simp [linkedNodes_length]

/-! ## Trace lemmas for the status claims (C4) -/

theorem renderOf_eventBlock {e : Event} {b : Nat} {d : String} {c : Color}
    (h : renderOf e = some (b, d, c)) : eventBlock e = some b := by
  cases e <;> simp_all [renderOf, eventBlock]

theorem appendOf_eventBlock {e : Event} {b : Nat} {t : String}
    (h : appendOf e = some (b, t)) : eventBlock e = some b := by
  cases e <;> simp_all [appendOf, eventBlock]

theorem lastRenderFor_append (evs l : List Event) (b : Nat) :
    lastRenderFor (evs ++ l) b =
      l.foldl
        (fun acc e =>
          match renderOf e with
          | some (b', d, c) => if b' = b then some (d, c) else acc
          | none => acc)
        (lastRenderFor evs b) := by
  simp [lastRenderFor, List.foldl_append]

theorem lastRenderFor_no_renders (l : List Event) (b : Nat)
    (h : ∀ e ∈ l, ∀ p : Nat × String × Color, renderOf e = some p → p.1 ≠ b) :
    ∀ acc : Option (String × Color),
      l.foldl
        (fun acc e =>
          match renderOf e with
          | some (b', d, c) => if b' = b then some (d, c) else acc
          | none => acc)
        acc = acc := by
  induction l with
  | nil => intro acc; rfl
  | cons e l ih =>
    intro acc
    rw [List.foldl_cons]
    have step : (match renderOf e with
        | some (b', d, c) => if b' = b then some (d, c) else acc
        | none => acc) = acc := by
      rcases hre : renderOf e with _ | ⟨b', d, c⟩
      · rfl
      · have := h e (List.mem_cons_self _ _) (b', d, c) hre
        simp only [if_neg this]
    rw [step]
    exact ih (fun e' he' => h e' (List.mem_cons_of_mem _ he')) acc

theorem lastRenderFor_none (evs : List Event) (b : Nat)
    (h : ∀ e ∈ evs, eventBlock e ≠ some b) : lastRenderFor evs b = none := by
  have := lastRenderFor_no_renders evs b
    (fun e he p hp => fun hpb => h e he (hpb ▸ renderOf_eventBlock hp)) none
  simpa [lastRenderFor] using this

theorem GreenIn_append {evs l : List Event} {b : Nat} {d : String} :
    GreenIn (evs ++ l) b d ↔ GreenIn evs b d ∨ GreenIn l b d := by
  simp [GreenIn, List.mem_append]
  constructor
  · rintro ⟨e, he | he, hre⟩
    · exact Or.inl ⟨e, he, hre⟩
    · exact Or.inr ⟨e, he, hre⟩
  · rintro (⟨e, he, hre⟩ | ⟨e, he, hre⟩)
    · exact ⟨e, Or.inl he, hre⟩
    · exact ⟨e, Or.inr he, hre⟩

theorem GreenIn_nil {b : Nat} {d : String} : ¬ GreenIn [] b d := by
  rintro ⟨e, he, _⟩
  simp at he

theorem GreenIn_mono {evs l : List Event} {b : Nat} {d : String}
    (h : GreenIn evs b d) : GreenIn (evs ++ l) b d :=
  GreenIn_append.2 (Or.inl h)

theorem traceOk_nil : TraceOk [] := by
  intro i j ei ej b d t _ hi _ _ _
  simp at hi

theorem getElem?_some_lt {α : Type} {l : List α} {i : Nat} {a : α}
    (h : l[i]? = some a) : i < l.length := by
  by_contra hc
  rw [List.getElem?_eq_none (by omega)] at h
  exact absurd h (by simp)

theorem getElem?_some_mem {α : Type} {l : List α} {i : Nat} {a : α}
    (h : l[i]? = some a) : a ∈ l := by
  have hlt := getElem?_some_lt h
  rw [List.getElem?_eq_getElem hlt] at h
  rw [← Option.some_inj.1 h]
  exact List.getElem_mem hlt

theorem traceOk_append {evs new : List Event} (h1 : TraceOk evs) (h2 : TraceOk new)
    (h3 : ∀ b d, GreenIn evs b d → ∀ t e, e ∈ new → appendOf e = some (b, t) → t = d) :
    TraceOk (evs ++ new) := by
  intro i j ei ej b d t hij hi hj hr ha
  by_cases hjl : j < evs.length
  · have hil : i < evs.length := by omega
    rw [List.getElem?_append_left hil] at hi
    rw [List.getElem?_append_left hjl] at hj
    exact h1 i j ei ej b d t hij hi hj hr ha
  · rw [List.getElem?_append_right (by omega)] at hj
    by_cases hil : i < evs.length
    · rw [List.getElem?_append_left hil] at hi
      exact h3 b d ⟨ei, getElem?_some_mem hi, hr⟩ t ej (getElem?_some_mem hj) ha
    · rw [List.getElem?_append_right (by omega)] at hi
      exact h2 (i - evs.length) (j - evs.length) ei ej b d t (by omega) hi hj hr ha

theorem appendLast_concat_empty (l : List String) (p : String) :
    appendLast (l ++ [""]) p = l ++ [p] := by
  rw [appendLast_eq _ _ (by simp)]
  simp [lastStr]

theorem lastStr_concat (l : List String) (s : String) : lastStr (l ++ [s]) = s := by
  simp [lastStr]

theorem EMBED_COLOR_complete : EMBED_COLOR "complete" = Color.green := by
  simp [EMBED_COLOR]

theorem EMBED_COLOR_incomplete : EMBED_COLOR "incomplete" = Color.orange := by
  simp [EMBED_COLOR]

theorem length_pos_of_ne {s : String} (h : s ≠ "") : 0 < s.length := by
  cases s with
  | mk data =>
    cases data with
    | nil => exact absurd rfl h
    | cons a l => simp [String.length]

theorem length_pos_ne {s : String} (h : 0 < s.length) : s ≠ "" := by
  intro he
  rw [he] at h
  simp at h

theorem getLastD_eq_getLast {l : List Nat} (h : l ≠ []) (d : Nat) :
    l.getLastD d = l.getLast h := by
  rw [List.getLastD_eq_getLast?, List.getLast?_eq_getLast l h]
  rfl

theorem getLastD_mem {l : List Nat} (h : l ≠ []) (d : Nat) : l.getLastD d ∈ l := by
  rw [getLastD_eq_getLast h]
  exact List.getLast_mem h

theorem mem_dropLast_or_last {l : List Nat} {b : Nat} (h : l ≠ []) (hb : b ∈ l) :
    b ∈ l.dropLast ∨ b = l.getLastD 0 := by
  rw [← List.dropLast_append_getLast h] at hb
  rcases List.mem_append.1 hb with h1 | h1
  · exact Or.inl h1
  · right
    rw [getLastD_eq_getLast h]
    simpa using h1

theorem traceOk_renders_last (l : List Event)
    (h : ∀ i e, l[i]? = some e →
      (∃ p : Nat × String × Color, renderOf e = some p) → i + 1 = l.length) :
    TraceOk l := by
  intro i j ei ej b d t hij hi hj hr ha
  have h1 := h i ei hi ⟨(b, d, Color.green), hr⟩
  have h2 := getElem?_some_lt hj
  omega

theorem traceOk_pair_create (B r : Nat) (p : String) (c : Color) (wf : List String) :
    TraceOk [Event.create B r p c wf, Event.appendText B p] := by
  intro i j ei ej b d t hij hi hj hr ha
  have h2 : j < 2 := by simpa using getElem?_some_lt hj
  have hi0 : i = 0 := by omega
  have hj1 : j = 1 := by omega
  subst hi0
  subst hj1
  simp only [List.getElem?_cons_zero, List.getElem?_cons_succ, Option.some_inj] at hi hj
  subst hi
  subst hj
  simp only [renderOf, Option.some_inj, Prod.mk.injEq] at hr
  simp only [appendOf, Option.some_inj, Prod.mk.injEq] at ha
  rw [← ha.2, hr.2.1]

theorem traceOk_single_append (L : Nat) (T : String) :
    TraceOk [Event.appendText L T] := by
  apply traceOk_renders_last
  intro i e hi hp
  have hlt : i < 1 := by simpa using getElem?_some_lt hi
  have hi0 : i = 0 := by omega
  subst hi0
  simp only [List.getElem?_cons_zero, Option.some_inj] at hi
  subst hi
  rcases hp with ⟨p, hp⟩
  simp [renderOf] at hp

theorem traceOk_chunk_edit (L tid : Nat) (T : String) (c : Color) (W : List Event)
    (hW : ∀ e ∈ W, renderOf e = none) :
    TraceOk (Event.appendText L T :: (W ++ [Event.editTask tid L T c])) := by
  apply traceOk_renders_last
  intro i e hi hp
  match i with
  | 0 =>
    simp only [List.getElem?_cons_zero, Option.some_inj] at hi
    subst hi
    rcases hp with ⟨p, hp⟩
    simp [renderOf] at hp
  | Nat.succ k =>
    simp only [List.getElem?_cons_succ] at hi
    by_cases hk : k < W.length
    · rw [List.getElem?_append_left hk] at hi
      have := hW e (getElem?_some_mem hi)
      rcases hp with ⟨p, hp⟩
      rw [this] at hp
      simp at hp
    · have hklt := getElem?_some_lt hi
      simp only [List.length_append, List.length_cons, List.length_nil] at hklt
      simp only [List.length_cons, List.length_append, List.length_nil]
      omega

theorem lastRenderFor_chunk_other (evs : List Event) (b : Nat) (chunk : List Event)
    (h : ∀ e ∈ chunk, ∀ p : Nat × String × Color, renderOf e = some p → p.1 ≠ b) :
    lastRenderFor (evs ++ chunk) b = lastRenderFor evs b := by
  rw [lastRenderFor_append, lastRenderFor_no_renders chunk b h]

theorem lastRenderFor_chunk_create (evs : List Event) (B r : Nat) (p : String) (c : Color)
    (wf : List String) :
    lastRenderFor (evs ++ [Event.create B r p c wf, Event.appendText B p]) B =
      some (p, c) := by
  rw [lastRenderFor_append]
  simp [renderOf]

theorem renderFold_step_none (acc : Option (String × Color)) (e : Event) (b : Nat)
    (h : renderOf e = none) :
    (fun acc e =>
      match renderOf e with
      | some (b', d, c) => if b' = b then some (d, c) else acc
      | none => acc) acc e = acc := by
  simp [h]

theorem renderFold_step_some (acc : Option (String × Color)) (e : Event) (b b' : Nat)
    (d : String) (c : Color) (h : renderOf e = some (b', d, c)) :
    (fun acc e =>
      match renderOf e with
      | some (b', d, c) => if b' = b then some (d, c) else acc
      | none => acc) acc e = if b' = b then some (d, c) else acc := by
  simp [h]

theorem lastRenderFor_chunk_edit (evs : List Event) (L tid : Nat) (T : String) (c : Color)
    (W : List Event) (hW : ∀ e ∈ W, renderOf e = none) :
    lastRenderFor (evs ++ (Event.appendText L T :: (W ++ [Event.editTask tid L T c]))) L =
      some (T, c) := by
  rw [lastRenderFor_append, List.foldl_cons]
  show List.foldl _ (lastRenderFor evs L) (W ++ [Event.editTask tid L T c]) = some (T, c)
  rw [List.foldl_append,
    lastRenderFor_no_renders W L (fun e he p hp => by rw [hW e he] at hp; cases hp)]
  show (if L = L then some (T, c) else lastRenderFor evs L) = some (T, c)
  rw [if_pos rfl]

theorem schedInv_step (env : SchedEnv) (o : Nat → Bool) (firstId : Nat)
    (st : StreamState) (cur : String) (inv : SchedInv firstId st)
    (hpend : ∀ q, st.previousContent = some q → q ≠ "" ∧
      (q ++ cur).length ≤ EMBED_MAX_LENGTH) :
    SchedInv firstId (stepChunk env o st cur) := by
  have hp : (stepChunk env o st cur).previousContent = some cur :=
    stepChunk_previousContent env o st cur
  rcases hpc : st.previousContent with _ | prev
  · -- no fragment pending: the loop body is skipped
    obtain ⟨hbm, hbe⟩ := inv.pendNone hpc
    rw [stepChunk_skip env o st cur (Or.inl hpc)]
    refine ⟨inv.lenEq, inv.blocks, inv.nextBlock, inv.evBound, inv.lastNe,
      inv.emptyNoEvents, ?_, inv.traceOk, inv.greenFinal, ?_, ?_, ?_, ?_⟩
    · intro h
      exact Option.noConfusion h
    · intro d hg
      have hg2 : GreenIn st.events (st.responseMessages.getLastD 0) d := hg
      rw [hbe] at hg2
      exact absurd hg2 GreenIn_nil
    · intro q hq hqne hmne
      have hm2 : st.responseMessages ≠ [] := hmne
      exact absurd hbm hm2
    · intro b hb
      have hb2 : b ∈ st.responseMessages.dropLast := hb
      rw [hbm] at hb2
      simp at hb2
    · intro h b hb
      have hb2 : b ∈ st.responseMessages := hb
      rw [hbm] at hb2
      simp at hb2
  · obtain ⟨hprevne, hfit⟩ := hpend prev hpc
    by_cases hcr : st.responseMessages = [] ∨
        EMBED_MAX_LENGTH < (lastStr st.responseMessageContents ++ prev).length
    · -- a new block is created for this fragment
      have hR1c : (maybeCreate env st prev cur).responseMessageContents =
          st.responseMessageContents ++ [""] := by
        rw [maybeCreate_pos env st prev cur hcr]
      have hR1m : (maybeCreate env st prev cur).responseMessages =
          st.responseMessages ++ [st.nextBlockId] := by
        rw [maybeCreate_pos env st prev cur hcr]
      have hR1e : (maybeCreate env st prev cur).events =
          st.events ++ [Event.create st.nextBlockId
            (if st.responseMessages = [] then env.requestId
             else st.responseMessages.getLastD 0)
            prev (if cur = "" then EMBED_COLOR "complete" else EMBED_COLOR "incomplete")
            env.warningFields] := by
        rw [maybeCreate_pos env st prev cur hcr]
      have hR1n : (maybeCreate env st prev cur).nextBlockId = st.nextBlockId + 1 := by
        rw [maybeCreate_pos env st prev cur hcr]
      have hlastR1 : lastStr
          (appendStep (maybeCreate env st prev cur) prev).responseMessageContents = prev := by
        rw [appendStep_contents, hR1c, appendLast_concat_empty, lastStr_concat]
      have hedit := maybeEdit_noGuard (appendStep (maybeCreate env st prev cur) prev)
        prev cur (o st.iter) hlastR1
      have hm : (stepChunk env o st cur).responseMessages =
          st.responseMessages ++ [st.nextBlockId] := by
        rw [stepChunk_main env o st prev cur hpc hprevne]
        show (maybeEdit (appendStep (maybeCreate env st prev cur) prev) prev cur
          (o st.iter)).responseMessages = _
        rw [hedit, appendStep_responseMessages, hR1m]
      have hc : (stepChunk env o st cur).responseMessageContents =
          st.responseMessageContents ++ [prev] := by
        rw [stepChunk_main env o st prev cur hpc hprevne]
        show (maybeEdit (appendStep (maybeCreate env st prev cur) prev) prev cur
          (o st.iter)).responseMessageContents = _
        rw [hedit, appendStep_contents, hR1c, appendLast_concat_empty]
      have hn : (stepChunk env o st cur).nextBlockId = st.nextBlockId + 1 := by
        rw [stepChunk_main env o st prev cur hpc hprevne]
        show (maybeEdit (appendStep (maybeCreate env st prev cur) prev) prev cur
          (o st.iter)).nextBlockId = _
        rw [hedit, appendStep_nextBlockId, hR1n]
      have he : (stepChunk env o st cur).events =
          st.events ++ [Event.create st.nextBlockId
              (if st.responseMessages = [] then env.requestId
               else st.responseMessages.getLastD 0)
              prev (if cur = "" then EMBED_COLOR "complete" else EMBED_COLOR "incomplete")
              env.warningFields,
            Event.appendText st.nextBlockId prev] := by
        rw [stepChunk_main env o st prev cur hpc hprevne]
        show (maybeEdit (appendStep (maybeCreate env st prev cur) prev) prev cur
          (o st.iter)).events = _
        rw [hedit, appendStep_events, hR1e, hR1m, hR1c, appendLast_concat_empty,
          lastStr_concat, List.getLastD_concat, List.append_assoc]
        rfl
      have hnoB : ∀ d, ¬ GreenIn st.events st.nextBlockId d := by
        rintro d ⟨e, hmem, hre⟩
        have := inv.evBound e hmem st.nextBlockId (renderOf_eventBlock hre)
        omega
      refine ⟨?_, ?_, ?_, ?_, ?_, ?_, ?_, ?_, ?_, ?_, ?_, ?_, ?_⟩
      · rw [hc, hm]
        simp only [List.length_append, List.length_cons, List.length_nil]
        have := inv.lenEq
        omega
      · rw [hm]
        simp only [List.length_append, List.length_cons, List.length_nil]
        rw [List.range'_1_concat, ← inv.nextBlock, ← inv.blocks]
      · rw [hn, hm]
        simp only [List.length_append, List.length_cons, List.length_nil]
        have := inv.nextBlock
        omega
      · rw [he, hn]
        intro e hmem b hb
        rcases List.mem_append.1 hmem with hold | hnew
        · have := inv.evBound e hold b hb
          omega
        · simp only [List.mem_cons, List.not_mem_nil, or_false] at hnew
          rcases hnew with rfl | rfl
          · simp only [eventBlock, Option.some_inj] at hb
            omega
          · simp only [eventBlock, Option.some_inj] at hb
            omega
      · intro _
        rw [hc, lastStr_concat]
        exact hprevne
      · intro h
        rw [hm] at h
        simp at h
      · intro h
        rw [hp] at h
        exact Option.noConfusion h
      · rw [he]
        refine traceOk_append inv.traceOk (traceOk_pair_create _ _ _ _ _) ?_
        intro b d hg t e hmem hap
        simp only [List.mem_cons, List.not_mem_nil, or_false] at hmem
        rcases hmem with rfl | rfl
        · simp [appendOf] at hap
        · simp only [appendOf, Option.some_inj, Prod.mk.injEq] at hap
          rcases hap with ⟨hb1, -⟩
          rw [← hb1] at hg
          exact absurd hg (hnoB d)
      · intro b d hg
        rw [he] at hg ⊢
        rcases GreenIn_append.1 hg with hgo | hgn
        · by_cases hbB : b = st.nextBlockId
          · subst hbB
            exact absurd hgo (hnoB d)
          · rw [lastRenderFor_chunk_other]
            · exact inv.greenFinal b d hgo
            · intro e hmem p hp2
              simp only [List.mem_cons, List.not_mem_nil, or_false] at hmem
              rcases hmem with rfl | rfl
              · simp only [renderOf, Option.some_inj] at hp2
                rw [← hp2]
                exact fun h => hbB (Eq.symm h)
              · simp [renderOf] at hp2
        · rcases hgn with ⟨e, hmem, hre⟩
          simp only [List.mem_cons, List.not_mem_nil, or_false] at hmem
          rcases hmem with rfl | rfl
          · simp only [renderOf, Option.some_inj, Prod.mk.injEq] at hre
            obtain ⟨hb1, hd1, hc1⟩ := hre
            rw [← hb1, lastRenderFor_chunk_create, hd1, hc1]
          · simp [renderOf] at hre
      · intro d hg
        rw [hm, List.getLastD_concat, he] at hg
        rcases GreenIn_append.1 hg with hgo | hgn
        · exact absurd hgo (hnoB d)
        · rcases hgn with ⟨e, hmem, hre⟩
          simp only [List.mem_cons, List.not_mem_nil, or_false] at hmem
          rcases hmem with rfl | rfl
          · simp only [renderOf, Option.some_inj, Prod.mk.injEq] at hre
            obtain ⟨-, hd1, hc1⟩ := hre
            by_cases hcur : cur = ""
            · constructor
              · rw [hc, lastStr_concat]
                exact hd1.symm
              · intro q hq hqne
                rw [hp] at hq
                obtain rfl : cur = q := Option.some_inj.1 hq
                exact absurd hcur hqne
            · rw [if_neg hcur, EMBED_COLOR_incomplete] at hc1
              exact Color.noConfusion hc1
          · simp [renderOf] at hre
      · intro q hq hqne hmne hov
        rw [hp] at hq
        obtain rfl : cur = q := Option.some_inj.1 hq
        rw [hc, lastStr_concat] at hov
        rw [String.length_append] at hov
        rw [String.length_append] at hfit
        omega
      · intro b hb
        rw [hm, List.dropLast_concat] at hb
        rw [he]
        by_cases hbm : st.responseMessages = []
        · rw [hbm] at hb
          simp at hb
        · rcases mem_dropLast_or_last hbm hb with h1 | h1
          · obtain ⟨d, hd⟩ := inv.closedGreen b h1
            exact ⟨d, GreenIn_mono hd⟩
          · rcases hcr with hcrL | hcrR
            · exact absurd hcrL hbm
            · have hgrn := inv.overflowGreen prev hpc hprevne hbm hcrR
              rw [h1]
              exact ⟨lastStr st.responseMessageContents, GreenIn_mono hgrn⟩
      · intro hpe b hb
        rw [hp] at hpe
        have hcur : cur = "" := Option.some_inj.1 hpe
        rw [hm] at hb
        rw [he]
        rcases List.mem_append.1 hb with hbo | hbn
        · by_cases hbm : st.responseMessages = []
          · rw [hbm] at hbo
            simp at hbo
          · rcases mem_dropLast_or_last hbm hbo with h1 | h1
            · obtain ⟨d, hd⟩ := inv.closedGreen b h1
              exact ⟨d, GreenIn_mono hd⟩
            · rcases hcr with hcrL | hcrR
              · exact absurd hcrL hbm
              · have hgrn := inv.overflowGreen prev hpc hprevne hbm hcrR
                rw [h1]
                exact ⟨lastStr st.responseMessageContents, GreenIn_mono hgrn⟩
        · simp only [List.mem_cons, List.not_mem_nil, or_false] at hbn
          subst hbn
          refine ⟨prev, GreenIn_append.2 (Or.inr ⟨Event.create st.nextBlockId
            (if st.responseMessages = [] then env.requestId
             else st.responseMessages.getLastD 0)
            prev (if cur = "" then EMBED_COLOR "complete" else EMBED_COLOR "incomplete")
            env.warningFields, by simp, ?_⟩)⟩
          simp only [renderOf]
          rw [if_pos hcur, EMBED_COLOR_complete]
    · -- the fragment is appended to the existing last block
      have hne2 : st.responseMessages ≠ [] := fun h => hcr (Or.inl h)
      have hle : (lastStr st.responseMessageContents ++ prev).length ≤ EMBED_MAX_LENGTH :=
        Nat.not_lt.1 (fun h => hcr (Or.inr h))
      have hcne : st.responseMessageContents ≠ [] := by
        intro h
        apply hne2
        have hl := inv.lenEq
        rw [h] at hl
        simp only [List.length_nil] at hl
        exact List.eq_nil_of_length_eq_zero hl.symm
      have hSne : lastStr st.responseMessageContents ≠ "" := inv.lastNe hne2
      have hT : lastStr (appendLast st.responseMessageContents prev) =
          lastStr st.responseMessageContents ++ prev := by
        rw [appendLast_eq _ _ hcne, lastStr_concat]
      have hTne : lastStr st.responseMessageContents ++ prev ≠ prev := by
        intro h
        have h2 := congrArg String.length h
        rw [String.length_append] at h2
        have h3 := length_pos_of_ne hSne
        omega
      have hcrneg := maybeCreate_neg env st prev cur hcr
      have hguard2 : lastStr
          (appendStep (maybeCreate env st prev cur) prev).responseMessageContents ≠ prev := by
        rw [appendStep_contents, hcrneg, hT]
        exact hTne
      have hGL : ∀ d, ¬ GreenIn st.events (st.responseMessages.getLastD 0) d := by
        intro d hg
        obtain ⟨-, hov⟩ := inv.greenPend d hg
        have h1 := hov prev hpc hprevne
        omega
      have hmemlt : ∀ x ∈ st.responseMessages, x < st.nextBlockId := by
        intro x hx
        rw [inv.blocks] at hx
        have h2 := (List.mem_range'_1.1 hx).2
        rw [inv.nextBlock]
        exact h2
      have hLlt : st.responseMessages.getLastD 0 < st.nextBlockId :=
        hmemlt _ (getLastD_mem hne2 0)
      have hm : (stepChunk env o st cur).responseMessages = st.responseMessages := by
        rw [stepChunk_main env o st prev cur hpc hprevne]
        show (maybeEdit (appendStep (maybeCreate env st prev cur) prev) prev cur
          (o st.iter)).responseMessages = _
        rw [maybeEdit_responseMessages, appendStep_responseMessages, hcrneg]
      have hc : (stepChunk env o st cur).responseMessageContents =
          appendLast st.responseMessageContents prev := by
        rw [stepChunk_main env o st prev cur hpc hprevne]
        show (maybeEdit (appendStep (maybeCreate env st prev cur) prev) prev cur
          (o st.iter)).responseMessageContents = _
        rw [maybeEdit_contents, appendStep_contents, hcrneg]
      have hn : (stepChunk env o st cur).nextBlockId = st.nextBlockId := by
        rw [stepChunk_main env o st prev cur hpc hprevne]
        show (maybeEdit (appendStep (maybeCreate env st prev cur) prev) prev cur
          (o st.iter)).nextBlockId = _
        rw [maybeEdit_nextBlockId, appendStep_nextBlockId, hcrneg]
      have htid : (appendStep (maybeCreate env st prev cur) prev).nextTaskId =
          st.nextTaskId := by
        show (maybeCreate env st prev cur).nextTaskId = st.nextTaskId
        rw [hcrneg]
      by_cases hdisp : (EMBED_MAX_LENGTH <
          ((lastStr st.responseMessageContents ++ prev) ++ cur).length ∨ cur = "") ∨
          (o st.iter) = true
      · -- the edit is dispatched
        have hdisp2 : (EMBED_MAX_LENGTH < (lastStr
              (appendStep (maybeCreate env st prev cur) prev).responseMessageContents ++
                cur).length ∨ cur = "") ∨ (o st.iter) = true := by
          rw [appendStep_contents, hcrneg, hT]
          exact hdisp
        obtain ⟨W, hWev, hWnone⟩ :
            ∃ W, (waitPrev (appendStep (maybeCreate env st prev cur) prev)).events =
                (appendStep (maybeCreate env st prev cur) prev).events ++ W ∧
              ∀ e ∈ W, renderOf e = none ∧ appendOf e = none ∧ eventBlock e = none := by
          rcases hWc : (appendStep (maybeCreate env st prev cur) prev).editMessageTask
            with _ | t
          · refine ⟨[], ?_, by simp⟩
            rw [waitPrev_eq_none _ hWc]
            simp
          · refine ⟨[Event.waitDone t], ?_, ?_⟩
            · rw [waitPrev_eq_some _ t hWc]
            · intro e hmem
              simp only [List.mem_cons, List.not_mem_nil, or_false] at hmem
              subst hmem
              exact ⟨rfl, rfl, rfl⟩
        have heq := maybeEdit_dispatch (appendStep (maybeCreate env st prev cur) prev)
          prev cur (o st.iter) hguard2 hdisp2
        have he : (stepChunk env o st cur).events =
            st.events ++ (Event.appendText (st.responseMessages.getLastD 0)
                (lastStr st.responseMessageContents ++ prev) ::
              (W ++ [Event.editTask st.nextTaskId (st.responseMessages.getLastD 0)
                (lastStr st.responseMessageContents ++ prev)
                (if EMBED_MAX_LENGTH <
                    ((lastStr st.responseMessageContents ++ prev) ++ cur).length ∨ cur = ""
                 then EMBED_COLOR "complete" else EMBED_COLOR "incomplete")])) := by
          rw [stepChunk_main env o st prev cur hpc hprevne]
          show (maybeEdit (appendStep (maybeCreate env st prev cur) prev) prev cur
            (o st.iter)).events = _
          rw [heq]
          dsimp only
          rw [hWev, appendStep_events, htid, appendStep_responseMessages,
            appendStep_contents, hcrneg, hT]
          simp only [List.append_assoc, List.singleton_append, List.cons_append,
            List.nil_append]
        refine ⟨?_, ?_, ?_, ?_, ?_, ?_, ?_, ?_, ?_, ?_, ?_, ?_, ?_⟩
        · rw [hc, hm, length_appendLast _ _ hcne]
          exact inv.lenEq
        · rw [hm]
          exact inv.blocks
        · rw [hn, hm]
          exact inv.nextBlock
        · rw [he, hn]
          intro e hmem b hb
          rcases List.mem_append.1 hmem with hold | hnew
          · exact inv.evBound e hold b hb
          · rcases List.mem_cons.1 hnew with rfl | hnew2
            · simp only [eventBlock, Option.some_inj] at hb
              rw [← hb]
              exact hLlt
            · rcases List.mem_append.1 hnew2 with hW' | hE
              · rw [(hWnone e hW').2.2] at hb
                exact Option.noConfusion hb
              · simp only [List.mem_cons, List.not_mem_nil, or_false] at hE
                subst hE
                simp only [eventBlock, Option.some_inj] at hb
                rw [← hb]
                exact hLlt
        · intro _
          rw [hc, hT]
          apply length_pos_ne
          rw [String.length_append]
          have := length_pos_of_ne hSne
          omega
        · intro h
          rw [hm] at h
          exact absurd h hne2
        · intro h
          rw [hp] at h
          exact Option.noConfusion h
        · rw [he]
          refine traceOk_append inv.traceOk
            (traceOk_chunk_edit _ _ _ _ W (fun e hw => (hWnone e hw).1)) ?_
          intro b d hg t e hmem hap
          rcases List.mem_cons.1 hmem with rfl | hmem2
          · simp only [appendOf, Option.some_inj, Prod.mk.injEq] at hap
            rcases hap with ⟨hb1, -⟩
            rw [← hb1] at hg
            exact absurd hg (hGL d)
          · rcases List.mem_append.1 hmem2 with hW' | hE
            · rw [(hWnone e hW').2.1] at hap
              exact Option.noConfusion hap
            · simp only [List.mem_cons, List.not_mem_nil, or_false] at hE
              subst hE
              simp [appendOf] at hap
        · intro b d hg
          rw [he] at hg ⊢
          rcases GreenIn_append.1 hg with hgo | hgn
          · by_cases hbL : b = st.responseMessages.getLastD 0
            · subst hbL
              exact absurd hgo (hGL d)
            · rw [lastRenderFor_chunk_other]
              · exact inv.greenFinal b d hgo
              · intro e hmem p hp2
                rcases List.mem_cons.1 hmem with rfl | hmem2
                · simp [renderOf] at hp2
                · rcases List.mem_append.1 hmem2 with hW' | hE
                  · rw [(hWnone e hW').1] at hp2
                    exact Option.noConfusion hp2
                  · simp only [List.mem_cons, List.not_mem_nil, or_false] at hE
                    subst hE
                    simp only [renderOf, Option.some_inj] at hp2
                    rw [← hp2]
                    exact fun h => hbL (Eq.symm h)
          · rcases hgn with ⟨e, hmem, hre⟩
            rcases List.mem_cons.1 hmem with rfl | hmem2
            · simp [renderOf] at hre
            · rcases List.mem_append.1 hmem2 with hW' | hE
              · rw [(hWnone e hW').1] at hre
                exact Option.noConfusion hre
              · simp only [List.mem_cons, List.not_mem_nil, or_false] at hE
                subst hE
                simp only [renderOf, Option.some_inj, Prod.mk.injEq] at hre
                obtain ⟨hb1, hd1, hc1⟩ := hre
                rw [← hb1,
                  lastRenderFor_chunk_edit _ _ _ _ _ W (fun e hw => (hWnone e hw).1),
                  hc1, hd1]
        · intro d hg
          rw [hm, he] at hg
          rcases GreenIn_append.1 hg with hgo | hgn
          · exact absurd hgo (hGL d)
          · rcases hgn with ⟨e, hmem, hre⟩
            rcases List.mem_cons.1 hmem with rfl | hmem2
            · simp [renderOf] at hre
            · rcases List.mem_append.1 hmem2 with hW' | hE
              · rw [(hWnone e hW').1] at hre
                exact Option.noConfusion hre
              · simp only [List.mem_cons, List.not_mem_nil, or_false] at hE
                subst hE
                simp only [renderOf, Option.some_inj, Prod.mk.injEq] at hre
                obtain ⟨-, hd1, hc1⟩ := hre
                constructor
                · rw [hc, hT]
                  exact hd1.symm
                · intro q hq hqne
                  rw [hp] at hq
                  obtain rfl : cur = q := Option.some_inj.1 hq
                  rw [hc, hT]
                  by_cases hF : EMBED_MAX_LENGTH <
                      ((lastStr st.responseMessageContents ++ prev) ++ cur).length ∨ cur = ""
                  · rcases hF with hF1 | hF2
                    · exact hF1
                    · exact absurd hF2 hqne
                  · rw [if_neg hF, EMBED_COLOR_incomplete] at hc1
                    exact Color.noConfusion hc1
        · intro q hq hqne hmne hov
          rw [hp] at hq
          obtain rfl : cur = q := Option.some_inj.1 hq
          rw [hc, hT] at hov
          rw [hm, hc, hT, he]
          refine GreenIn_append.2 (Or.inr ⟨Event.editTask st.nextTaskId
            (st.responseMessages.getLastD 0)
            (lastStr st.responseMessageContents ++ prev)
            (if EMBED_MAX_LENGTH <
                ((lastStr st.responseMessageContents ++ prev) ++ cur).length ∨ cur = ""
             then EMBED_COLOR "complete" else EMBED_COLOR "incomplete"), by simp, ?_⟩)
          simp only [renderOf]
          rw [if_pos (Or.inl hov), EMBED_COLOR_complete]
        · intro b hb
          rw [hm] at hb
          obtain ⟨d, hd⟩ := inv.closedGreen b hb
          rw [he]
          exact ⟨d, GreenIn_mono hd⟩
        · intro hpe b hb
          rw [hp] at hpe
          have hcur : cur = "" := Option.some_inj.1 hpe
          rw [hm] at hb
          rw [he]
          rcases mem_dropLast_or_last hne2 hb with h1 | h1
          · obtain ⟨d, hd⟩ := inv.closedGreen b h1
            exact ⟨d, GreenIn_mono hd⟩
          · rw [h1]
            refine ⟨lastStr st.responseMessageContents ++ prev,
              GreenIn_append.2 (Or.inr ⟨Event.editTask st.nextTaskId
                (st.responseMessages.getLastD 0)
                (lastStr st.responseMessageContents ++ prev)
                (if EMBED_MAX_LENGTH <
                    ((lastStr st.responseMessageContents ++ prev) ++ cur).length ∨ cur = ""
                 then EMBED_COLOR "complete" else EMBED_COLOR "incomplete"),
                by simp, ?_⟩)⟩
            simp only [renderOf]
            rw [if_pos (Or.inr hcur), EMBED_COLOR_complete]
      · -- the edit is skipped by the throttle
        obtain ⟨hFn, hOn⟩ := not_or.1 hdisp
        obtain ⟨hCap, hCur⟩ := not_or.1 hFn
        have hCaple : ((lastStr st.responseMessageContents ++ prev) ++ cur).length ≤
            EMBED_MAX_LENGTH := Nat.not_lt.1 hCap
        have hskip2 : ¬ ((EMBED_MAX_LENGTH < (lastStr
              (appendStep (maybeCreate env st prev cur) prev).responseMessageContents ++
                cur).length ∨ cur = "") ∨ (o st.iter) = true) := by
          rw [appendStep_contents, hcrneg, hT]
          exact hdisp
        have heq := maybeEdit_skip (appendStep (maybeCreate env st prev cur) prev)
          prev cur (o st.iter) hskip2
        have he : (stepChunk env o st cur).events =
            st.events ++ [Event.appendText (st.responseMessages.getLastD 0)
              (lastStr st.responseMessageContents ++ prev)] := by
          rw [stepChunk_main env o st prev cur hpc hprevne]
          show (maybeEdit (appendStep (maybeCreate env st prev cur) prev) prev cur
            (o st.iter)).events = _
          rw [heq, appendStep_events, hcrneg, hT]
        refine ⟨?_, ?_, ?_, ?_, ?_, ?_, ?_, ?_, ?_, ?_, ?_, ?_, ?_⟩
        · rw [hc, hm, length_appendLast _ _ hcne]
          exact inv.lenEq
        · rw [hm]
          exact inv.blocks
        · rw [hn, hm]
          exact inv.nextBlock
        · rw [he, hn]
          intro e hmem b hb
          rcases List.mem_append.1 hmem with hold | hnew
          · exact inv.evBound e hold b hb
          · simp only [List.mem_cons, List.not_mem_nil, or_false] at hnew
            subst hnew
            simp only [eventBlock, Option.some_inj] at hb
            rw [← hb]
            exact hLlt
        · intro _
          rw [hc, hT]
          apply length_pos_ne
          rw [String.length_append]
          have := length_pos_of_ne hSne
          omega
        · intro h
          rw [hm] at h
          exact absurd h hne2
        · intro h
          rw [hp] at h
          exact Option.noConfusion h
        · rw [he]
          refine traceOk_append inv.traceOk (traceOk_single_append _ _) ?_
          intro b d hg t e hmem hap
          simp only [List.mem_cons, List.not_mem_nil, or_false] at hmem
          subst hmem
          simp only [appendOf, Option.some_inj, Prod.mk.injEq] at hap
          rcases hap with ⟨hb1, -⟩
          rw [← hb1] at hg
          exact absurd hg (hGL d)
        · intro b d hg
          rw [he] at hg ⊢
          rcases GreenIn_append.1 hg with hgo | hgn
          · rw [lastRenderFor_chunk_other]
            · exact inv.greenFinal b d hgo
            · intro e hmem p hp2
              simp only [List.mem_cons, List.not_mem_nil, or_false] at hmem
              subst hmem
              simp [renderOf] at hp2
          · rcases hgn with ⟨e, hmem, hre⟩
            simp only [List.mem_cons, List.not_mem_nil, or_false] at hmem
            subst hmem
            simp [renderOf] at hre
        · intro d hg
          rw [hm, he] at hg
          rcases GreenIn_append.1 hg with hgo | hgn
          · exact absurd hgo (hGL d)
          · rcases hgn with ⟨e, hmem, hre⟩
            simp only [List.mem_cons, List.not_mem_nil, or_false] at hmem
            subst hmem
            simp [renderOf] at hre
        · intro q hq hqne hmne hov
          rw [hp] at hq
          obtain rfl : cur = q := Option.some_inj.1 hq
          rw [hc, hT] at hov
          omega
        · intro b hb
          rw [hm] at hb
          obtain ⟨d, hd⟩ := inv.closedGreen b hb
          rw [he]
          exact ⟨d, GreenIn_mono hd⟩
        · intro hpe b hb
          rw [hp] at hpe
          have hcur : cur = "" := Option.some_inj.1 hpe
          exact absurd hcur hCur

theorem mem_dropLast_cons {α : Type} {x b : α} {l : List α} (hx : x ∈ l.dropLast) :
    x ∈ (b :: l).dropLast := by
  cases l with
  | nil => simp at hx
  | cons c cs =>
    show x ∈ b :: (c :: cs).dropLast
    exact List.mem_cons_of_mem _ hx

theorem schedInv_run (env : SchedEnv) (o : Nat → Bool) (firstId : Nat) :
    ∀ (gs : List String) (st : StreamState), SchedInv firstId st →
      (∀ q, st.previousContent = some q → q ≠ "") →
      List.Chain' fitsCap (pendStr st :: gs) →
      (∀ f ∈ gs.dropLast, f ≠ "") →
      SchedInv firstId (runStream env o st gs) := by
  intro gs
  induction gs with
  | nil =>
    intro st inv _ _ _
    exact inv
  | cons f fs ih =>
    intro st inv hne hch hmid
    rw [runStream_cons]
    have hstep : SchedInv firstId (stepChunk env o st f) := by
      apply schedInv_step env o firstId st f inv
      intro q hq
      refine ⟨hne q hq, ?_⟩
      have h1 : fitsCap (pendStr st) f := (List.chain'_cons.1 hch).1
      simp only [pendStr, hq, Option.getD_some] at h1
      exact h1
    cases fs with
    | nil =>
      rw [runStream_nil]
      exact hstep
    | cons g gs2 =>
      apply ih (stepChunk env o st f) hstep
      · intro q hq
        rw [stepChunk_previousContent] at hq
        obtain rfl : f = q := Option.some_inj.1 hq
        apply hmid
        show f ∈ f :: (g :: gs2).dropLast
        exact List.mem_cons_self _ _
      · have hps : pendStr (stepChunk env o st f) = f := by
          simp only [pendStr, stepChunk_previousContent, Option.getD_some]
        rw [hps]
        exact (List.chain'_cons.1 hch).2
      · intro x hx
        exact hmid x (mem_dropLast_cons hx)

theorem schedInv_init (firstId : Nat) (inprog : List Nat) :
    SchedInv firstId (initState firstId inprog) := by
  refine ⟨rfl, rfl, rfl, ?_, ?_, fun _ => rfl, fun _ => ⟨rfl, rfl⟩, traceOk_nil,
    ?_, ?_, ?_, ?_, ?_⟩
  · intro e he b hb
    simp [initState] at he
  · intro h
    exact absurd rfl h
  · intro b d hg
    exact absurd hg GreenIn_nil
  · intro d hg
    exact absurd hg GreenIn_nil
  · intro q hq
    exact Option.noConfusion hq
  · intro b hb
    simp [initState] at hb
  · intro h
    exact Option.noConfusion h

theorem schedInv_goodRun (env : SchedEnv) (o : Nat → Bool) (firstId : Nat)
    (inprog : List Nat) (fs : List String) (h : goodFrags fs) :
    SchedInv firstId (runStream env o (initState firstId inprog) fs) := by
  obtain ⟨hterm, hmid, hchain⟩ := h
  apply schedInv_run env o firstId fs (initState firstId inprog)
    (schedInv_init firstId inprog)
  · intro q hq
    exact Option.noConfusion hq
  · have hps : pendStr (initState firstId inprog) = "" := rfl
    rw [hps]
    cases fs with
    | nil => simp at hterm
    | cons f rest =>
      rw [List.chain'_cons]
      refine ⟨?_, hchain⟩
      show ("" ++ f).length ≤ EMBED_MAX_LENGTH
      have hef : ("" ++ f) = f := rfl
      rw [hef]
      cases rest with
      | nil =>
        simp at hterm
        rw [hterm]
        exact Nat.zero_le _
      | cons g rest2 =>
        have h2 : fitsCap f g := (List.chain'_cons.1 hchain).1
        have h3 : (f ++ g).length ≤ EMBED_MAX_LENGTH := h2
        rw [String.length_append] at h3
        omega
  · exact hmid

/-- Claim C4 as amended: over well-formed streams (terminated by the empty
fragment, every non-terminal fragment nonempty, adjacent fragments jointly
within the cap), the trace never extends a block beyond a state already
rendered complete — a complete render is final for the block's text — and
on termination every created block's last render carries the complete
color.  (As stated the claim fails for streams with empty non-terminal
fragments, see the counterexample.) -/
theorem c4_status (env : SchedEnv) (oracle : Nat → Bool) (firstId : Nat)
    (inprog : List Nat) (fs : List String) (h : goodFrags fs) :
    TraceOk (runStream env oracle (initState firstId inprog) fs).events ∧
      ∀ b ∈ (runStream env oracle (initState firstId inprog) fs).responseMessages,
        ∃ d, lastRenderFor (runStream env oracle (initState firstId inprog) fs).events b =
          some (d, Color.green) := by
  have inv := schedInv_goodRun env oracle firstId inprog fs h
  refine ⟨inv.traceOk, ?_⟩
  intro b hb
  have hfsne : fs ≠ [] := by
    intro hfs
    obtain ⟨h1, -, -⟩ := h
    rw [hfs] at h1
    simp at h1
  have hpendfin : (runStream env oracle (initState firstId inprog) fs).previousContent =
      some "" := by
    rw [pend_runStream env oracle fs (initState firstId inprog) hfsne, h.1]
  obtain ⟨d, hd⟩ := inv.pendEmptyAll hpendfin b hb
  exact ⟨d, inv.greenFinal b d hd⟩

/-- Claim C4 as stated fails for streams with an empty non-terminal
fragment (which the claim explicitly allows): on fragments
["Hello", "", "world", ""] the single block is created already with the
complete color while the fragment "world" still extends its text later, so
the trace extends a complete-rendered block with different text. -/
theorem c4_counterexample :
    (runStream ⟨1, []⟩ (fun _ => false) (initState 100 [])
        ["Hello", "", "world", ""]).events =
      [Event.create 100 1 "Hello" Color.green [],
       Event.appendText 100 "Hello",
       Event.appendText 100 "Helloworld",
       Event.editTask 0 100 "Helloworld" Color.green] ∧
    ¬ TraceOk (runStream ⟨1, []⟩ (fun _ => false) (initState 100 [])
        ["Hello", "", "world", ""]).events := by
  refine ⟨by decide, ?_⟩
  intro htr
  have h02 := htr 0 2 (Event.create 100 1 "Hello" Color.green [])
    (Event.appendText 100 "Helloworld") 100 "Hello" "Helloworld"
    (by omega) (by decide) (by decide) (by decide) (by decide)
  exact absurd h02 (by decide)

/-- Claim C8 fails as stated: the code compares the count of image-typed
attachments against the cap, not the total attachment count.  A message with
two attachments, only one of which is an image, exceeds the cap
`MAX_IMAGES = 1` by attachment count, yet `tooManyImages` is false. -/
theorem c8_counterexample :
    (Msg.attachments
        { id := 7, authorIsBot := false, authorId := 3, content := "look",
          embedDesc := "",
          attachments := [⟨"u1", "image/png"⟩, ⟨"u2", "text/plain"⟩],
          reference := none }).length = 2 ∧
    1 < (Msg.attachments
        { id := 7, authorIsBot := false, authorId := 3, content := "look",
          embedDesc := "",
          attachments := [⟨"u1", "image/png"⟩, ⟨"u2", "text/plain"⟩],
          reference := none }).length ∧
    (buildNode
        { maxImages := 1, maxMessages := 5, isMistral := false,
          botMention := "<@9>", botUserId := 9 }
        { id := 7, authorIsBot := false, authorId := 3, content := "look",
          embedDesc := "",
          attachments := [⟨"u1", "image/png"⟩, ⟨"u2", "text/plain"⟩],
          reference := none }).tooManyImages = false := by
  exact ⟨by decide, by decide, by decide⟩

/-! ## Concrete instantiations of the hypothesis-bearing claim theorems -/

theorem c2_total_text_witness :
    (["Hel", "lo ", "world", ""] : List String).getLast? = some "" ∧
      String.join (runStream ⟨1, []⟩ (fun _ => true) (initState 100 [])
          ["Hel", "lo ", "world", ""]).responseMessageContents =
        String.join (["Hel", "lo ", "world", ""] : List String).dropLast :=
  ⟨by decide, c2_total_text.1 ⟨1, []⟩ (fun _ => true) 100 []
    ["Hel", "lo ", "world", ""] (by decide)⟩

theorem c3_cap_invariant_witness :
    (∀ f ∈ (["Hi", ""] : List String), f.length ≤ EMBED_MAX_LENGTH) ∧
      ∀ c ∈ (runStream ⟨1, []⟩ (fun _ => true) (initState 100 [])
          ["Hi", ""]).responseMessageContents, c.length ≤ EMBED_MAX_LENGTH :=
  ⟨by decide, c3_cap_invariant ⟨1, []⟩ (fun _ => true) 100 [] ["Hi", ""] (by decide)⟩

theorem c4_status_witness :
    goodFrags ["Hi", ""] ∧
      (TraceOk (runStream ⟨1, []⟩ (fun _ => true) (initState 100 []) ["Hi", ""]).events ∧
        ∀ b ∈ (runStream ⟨1, []⟩ (fun _ => true) (initState 100 [])
            ["Hi", ""]).responseMessages,
          ∃ d, lastRenderFor
              (runStream ⟨1, []⟩ (fun _ => true) (initState 100 []) ["Hi", ""]).events b =
            some (d, Color.green)) := by
  have hchain : List.Chain' fitsCap ["Hi", ""] := by
    rw [List.chain'_cons]
    refine ⟨?_, List.chain'_singleton _⟩
    show ("Hi" ++ "").length ≤ EMBED_MAX_LENGTH
    decide
  have hgood : goodFrags ["Hi", ""] := ⟨by decide, by decide, hchain⟩
  exact ⟨hgood, c4_status ⟨1, []⟩ (fun _ => true) 100 [] ["Hi", ""] hgood⟩

theorem c5_final_edit_witness :
    lastStr (["Hi!"] : List String) ≠ "!" ∧
      (EMBED_MAX_LENGTH < (lastStr (["Hi!"] : List String) ++ "").length ∨
        ("" : String) = "") ∧
      (maybeEdit ⟨[100], ["Hi!"], some "x", none, 0, 101, [100], [], 2⟩ "!" "" true).events =
        (waitPrev ⟨[100], ["Hi!"], some "x", none, 0, 101, [100], [], 2⟩).events ++
          [Event.editTask 0 100 "Hi!" (EMBED_COLOR "complete")] :=
  ⟨by decide, Or.inr rfl,
    c5_final_edit.1 ⟨[100], ["Hi!"], some "x", none, 0, 101, [100], [], 2⟩ "!" "" true
      (by decide) (Or.inr rfl)⟩

theorem c6_cleanup_nodes_witness :
    strContains (pyLower "draw me a cat") "draw me" = true ∧
      (100 : Nat) ∈ ([100] : List Nat) ∧
      ([100] : List Nat).Nodup ∧
      ((handleAfterStream "draw me a cat" true 42 1 emptyStore
          ⟨[100], ["Hi"], some "", none, 0, 101, [100], [], 2⟩).1 100 =
        some { message :=
                { role := "assistant"
                  content := MsgContent.flat (String.join ["Hi"])
                  name := toString 42 }
               tooManyImages := false
               repliedTo := some 1 } ∧
       (handleAfterStream "draw me a cat" true 42 1 emptyStore
          ⟨[100], ["Hi"], some "", none, 0, 101, [100], [], 2⟩).2 =
        ([100] : List Nat).foldl List.erase [100]) :=
  ⟨by decide, by decide, by decide,
    c6_cleanup_nodes "draw me a cat" 42 1 emptyStore
      ⟨[100], ["Hi"], some "", none, 0, 101, [100], [], 2⟩ 100
      (by decide) (by decide) (by decide)⟩

theorem c7_history_witness :
    ChainFrom
        (fun j => if j = 5 then
          some { message := { role := "user", content := MsgContent.flat "hi", name := "3" }, tooManyImages := false, repliedTo := none }
          else none)
        (some 5)
        [(5, { message := { role := "user", content := MsgContent.flat "hi", name := "3" }, tooManyImages := false, repliedTo := none })] ∧
      1 ≤ (3 : Nat) ∧
      (assembleHistory
          (fun j => if j = 5 then
            some { message := { role := "user", content := MsgContent.flat "hi", name := "3" }, tooManyImages := false, repliedTo := none }
            else none)
          { maxImages := 0, maxMessages := 3, isMistral := false,
            botMention := "m", botUserId := 9 } 5 []).1.length =
        ([] : List PromptEntry).length + min 1 3 := by
  have hch : ChainFrom
      (fun j => if j = 5 then
        some { message := { role := "user", content := MsgContent.flat "hi", name := "3" }, tooManyImages := false, repliedTo := none }
        else none)
      (some 5)
      [(5, { message := { role := "user", content := MsgContent.flat "hi", name := "3" }, tooManyImages := false, repliedTo := none })] :=
    ChainFrom.cons (by decide) ChainFrom.nil
  refine ⟨hch, by decide, ?_⟩
  exact (c7_history
    { maxImages := 0, maxMessages := 3, isMistral := false,
      botMention := "m", botUserId := 9 }
    (fun j => if j = 5 then
      some { message := { role := "user", content := MsgContent.flat "hi", name := "3" }, tooManyImages := false, repliedTo := none }
      else none)
    5
    [(5, { message := { role := "user", content := MsgContent.flat "hi", name := "3" }, tooManyImages := false, repliedTo := none })]
    [] hch
    (by intro p hp; simp only [List.mem_singleton] at hp; subst hp; rfl)
    (by decide)).2.1

theorem c8_image_cap_witness :
    ({ maxImages := 1, maxMessages := 5, isMistral := false,
        botMention := "<@9>", botUserId := 9 } : Config).maxImages <
      (imageParts
        { id := 7, authorIsBot := false, authorId := 3, content := "look",
          embedDesc := "",
          attachments := [⟨"u1", "image/png"⟩, ⟨"u2", "image/jpeg"⟩],
          reference := none }).length ∧
    ({ maxImages := 1, maxMessages := 5, isMistral := false,
        botMention := "<@9>", botUserId := 9 } : Config).isMistral = false ∧
    (buildNode
        { maxImages := 1, maxMessages := 5, isMistral := false,
          botMention := "<@9>", botUserId := 9 }
        { id := 7, authorIsBot := false, authorId := 3, content := "look",
          embedDesc := "",
          attachments := [⟨"u1", "image/png"⟩, ⟨"u2", "image/jpeg"⟩],
          reference := none }).tooManyImages = true :=
  ⟨by decide, by decide,
    (c8_image_cap
      { maxImages := 1, maxMessages := 5, isMistral := false,
        botMention := "<@9>", botUserId := 9 }
      { id := 7, authorIsBot := false, authorId := 3, content := "look",
        embedDesc := "",
        attachments := [⟨"u1", "image/png"⟩, ⟨"u2", "image/jpeg"⟩],
        reference := none }
      (by decide) (by decide)).1⟩

theorem c9_truncated_walk_witness :
    FetchPath (fun _ => FetchResult.notFound)
        { id := 7, authorIsBot := false, authorId := 3, content := "hi",
          embedDesc := "", attachments := [], reference := some 5 }
        [{ id := 7, authorIsBot := false, authorId := 3, content := "hi",
           embedDesc := "", attachments := [], reference := some 5 }] 5 ∧
      (([{ id := 7, authorIsBot := false, authorId := 3, content := "hi",
           embedDesc := "", attachments := [], reference := some 5 }].map Msg.id).Nodup ∧
        (5 : Nat) ∉
          [{ id := 7, authorIsBot := false, authorId := 3, content := "hi",
             embedDesc := "", attachments := [], reference := some 5 }].map Msg.id) ∧
      buildChainLoop
          { maxImages := 0, maxMessages := 3, isMistral := false,
            botMention := "m", botUserId := 9 }
          (fun _ => FetchResult.notFound) 1 emptyStore
          { id := 7, authorIsBot := false, authorId := 3, content := "hi",
            embedDesc := "", attachments := [], reference := some 5 } none =
        some (expectedStore
          { maxImages := 0, maxMessages := 3, isMistral := false,
            botMention := "m", botUserId := 9 }
          emptyStore none
          [{ id := 7, authorIsBot := false, authorId := 3, content := "hi",
             embedDesc := "", attachments := [], reference := some 5 }]) := by
  have hpath : FetchPath (fun _ => FetchResult.notFound)
      { id := 7, authorIsBot := false, authorId := 3, content := "hi",
        embedDesc := "", attachments := [], reference := some 5 }
      [{ id := 7, authorIsBot := false, authorId := 3, content := "hi",
         embedDesc := "", attachments := [], reference := some 5 }] 5 :=
    FetchPath.last rfl (Or.inl rfl)
  refine ⟨hpath, ⟨by decide, by decide⟩, ?_⟩
  exact (c9_truncated_walk
    { maxImages := 0, maxMessages := 3, isMistral := false,
      botMention := "m", botUserId := 9 }
    (fun _ => FetchResult.notFound)
    { id := 7, authorIsBot := false, authorId := 3, content := "hi",
      embedDesc := "", attachments := [], reference := some 5 }
    [{ id := 7, authorIsBot := false, authorId := 3, content := "hi",
       embedDesc := "", attachments := [], reference := some 5 }]
    5 [] hpath (by decide) (by decide) (by decide)).1

theorem c10_reply_chain_witness :
    0 < (creates (runStream ⟨1, []⟩ (fun _ => true) (initState 100 [])
        ["Hi", ""]).events).length ∧
      ((creates (runStream ⟨1, []⟩ (fun _ => true) (initState 100 [])
          ["Hi", ""]).events).getD 0 (0, 0)).2 =
        if (0 : Nat) = 0 then (1 : Nat)
        else ((creates (runStream ⟨1, []⟩ (fun _ => true) (initState 100 [])
          ["Hi", ""]).events).getD (0 - 1) (0, 0)).1 :=
  ⟨by decide, c10_reply_chain ⟨1, []⟩ (fun _ => true) 100 [] ["Hi", ""] 0 (by decide)⟩

end Llmcord
